import Mathlib

/-!
Verification development for `scripts/project_index.py` (claude-code-project-index).

This file gives a shallow embedding, in Lean 4, of the core build-and-safe-update
pipeline of `project_index.py`: the bidirectional call-graph builder, the
dependency-graph resolver, the size governor (`compress_index_if_needed`), the
change analyzer (`analyze_changes` / `get_file_level_changes`), backup rotation
(`manage_backup_rotation`), atomic persistence (`safe_save_index`), and the
logging orchestration of `main` / `complete_backup_log` / `create_backup`.

Modelling conventions:
- Python `dict`s are modelled as association lists (`List (String × _)`) in
  insertion order; keys are unique in every state the program constructs, and
  the dictionary operations (`dictGet`, the append-or-update `addEdge`, the
  get-or-zero-then-increment `statInc`) mirror CPython dict semantics.
- Python objects that are "either a bare string or a dict" (symbol records,
  class records) are modelled as sum types (`SymRec`, `ClassVal`), and the
  presence / absence of a dict key as `Option`.
- File-system access is abstracted into explicit inputs: the walk of
  `build_index` is given the per-file extraction outcomes, `analyze_changes`
  is given the readability status of the prior snapshot, and the persistence
  layer acts on an explicit store (`FS`) with injected failures (`SaveInj`).
- Paths are POSIX-style relative path strings, as produced by
  `str(path.relative_to(root))` on the platforms the script targets; the
  `potential_file.replace('\\', '/')` call in the source is the identity there.
- `json.dumps(index, indent=2)` is modelled by `dumps`, which reproduces
  CPython's `indent=2` layout and `ensure_ascii` escaping for the fixed schema
  of the index (numbers are carried as `Int`; the float `staleness_check`
  timestamp is carried as an integer number of seconds, and astral-plane
  characters are rendered as a single `\uXXXX` escape - both irrelevant to the
  claims, which only need the serialized length of a concrete witness with a
  wide margin).
- Python `list(set(...))` enumerates a set in an unspecified order; it is
  modelled by `List.dedup`, which agrees with it on membership, the only
  property the program's consumers (and the claims) depend on.
-/

/-- Dictionary lookup on an association list (CPython `d[k]` / `k in d`),
returning the value at the first matching key. -/
def dictGet {α : Type} : List (String × α) → String → Option α
  | [], _ => none
  | (k, v) :: rest, key => if k = key then some v else dictGet rest key

/-- One reverse-edge registration of the call-graph builder
(`project_index.py` lines 315-318 / 331-334): if `key` is absent the dict gains
`key -> [caller]` at the end, otherwise `caller` is appended to the existing
list. -/
def addEdge : List (String × List String) → String → String → List (String × List String)
  | [], key, caller => [(key, [caller])]
  | (k, v) :: rest, key, caller =>
    if k = key then (k, v ++ [caller]) :: rest
    else (k, v) :: addEdge rest key caller

/-- CPython `d[k] = d.get(k, 0) + 1` on a counter dict
(`project_index.py` lines 216-217, 221-222, 225-226). -/
def statInc : List (String × Nat) → String → List (String × Nat)
  | [], key => [(key, 1)]
  | (k, v) :: rest, key =>
    if k = key then (k, v + 1) :: rest
    else (k, v) :: statInc rest key

/-- Join character lists with a separator (used by the JSON printer). -/
def joinSep (sep : List Char) : List (List Char) → List Char
  | [] => []
  | [x] => x
  | x :: xs => x ++ sep ++ joinSep sep xs

/-- Python `sep.join(strings)`. -/
def joinStrSep (sep : String) : List String → String
  | [] => ""
  | [x] => x
  | x :: xs => x ++ sep ++ joinStrSep sep xs

/-- A symbol record dict: the structured form of a SymbolRecord. The extractor
produces `signature` and optionally `calls`; the call-graph builder adds
`called_by`. `Option` models key presence. -/
structure SymDict where
  signature : Option String := none
  calls : Option (List String) := none
  called_by : Option (List String) := none
deriving DecidableEq

/-- A SymbolRecord value: either a bare signature string or a dict
(`isinstance(func_data, dict)` distinguishes the two in the source). -/
inductive SymRec
  | str (s : String)
  | dict (d : SymDict)
deriving DecidableEq

/-- A class record dict with its (optional) `methods` mapping. -/
structure ClassDict where
  methods : Option (List (String × SymRec)) := none
deriving DecidableEq

/-- A class record value: bare string or dict, as tested by
`isinstance(class_data, dict)`. -/
inductive ClassVal
  | str (s : String)
  | dict (d : ClassDict)
deriving DecidableEq

/-- One `file_info` dict of `index['files']` as constructed by `build_index`
(lines 184-229): `language` and `parsed` are always present, `purpose` comes
from `infer_file_purpose`, and `functions` / `classes` / `imports` appear when
`file_info.update(extracted)` ran. Every value stored in `index['files']` is a
dict, so the `isinstance(file_info, dict)` guards of lines 303 and 338 never
fail and are not represented. -/
structure FileInfo where
  language : String := ""
  parsed : Bool := false
  purpose : Option String := none
  functions : Option (List (String × SymRec)) := none
  classes : Option (List (String × ClassVal)) := none
  imports : Option (List String) := none
deriving DecidableEq

/-- The `index['files']` mapping: relative path -> file record. -/
abbrev Files := List (String × FileInfo)

/-- The reverse index `called_by_graph`: callee name -> caller bare names. -/
abbrev Graph := List (String × List String)

/-- The `calls` list of a symbol record, when it is a dict carrying one
(`isinstance(func_data, dict) and 'calls' in func_data`). -/
def symCalls : SymRec → Option (List String)
  | .str _ => none
  | .dict d => d.calls

/-- Register the forward edges of one caller: for every `called` in its
`calls` list, append the caller's bare name to `called_by_graph[called]`
(lines 315-318 and 331-334). -/
def addCalls (g : Graph) (caller : String) (calls : List String) : Graph :=
  calls.foldl (fun g c => addEdge g c caller) g

/-- Pass 1 over the `functions` of one file (lines 307-318): each function
whose record is a dict with a `calls` key registers its edges under its bare
function name. -/
def collectFuncs (g : Graph) (funcs : List (String × SymRec)) : Graph :=
  funcs.foldl
    (fun g p =>
      match symCalls p.2 with
      | some cs => addCalls g p.1 cs
      | none => g)
    g

/-- Pass 1 over the `methods` of one class (lines 324-334): each method whose
record is a dict with a `calls` key registers its edges under
`ClassName.method_name`. -/
def collectMethods (g : Graph) (cname : String) (ms : List (String × SymRec)) : Graph :=
  ms.foldl
    (fun g p =>
      match symCalls p.2 with
      | some cs => addCalls g (cname ++ "." ++ p.1) cs
      | none => g)
    g

/-- Pass 1 over the `classes` of one file (lines 321-334), guarded by
`isinstance(class_data, dict) and 'methods' in class_data`. -/
def collectClasses (g : Graph) (cls : List (String × ClassVal)) : Graph :=
  cls.foldl
    (fun g p =>
      match p.2 with
      | .dict cd =>
        match cd.methods with
        | some ms => collectMethods g p.1 ms
        | none => g
      | .str _ => g)
    g

/-- Pass 1 over one file record (lines 302-334): functions first, then class
methods. (The forward map `call_graph` keyed by `path:name` is also built
there, but it is never read afterwards and does not influence the output, so
it is not modelled.) -/
def collectFile (g : Graph) (fi : FileInfo) : Graph :=
  let g1 :=
    match fi.functions with
    | some funcs => collectFuncs g funcs
    | none => g
  match fi.classes with
  | some cls => collectClasses g1 cls
  | none => g1

/-- Pass 1 of the call-graph builder: `called_by_graph` accumulated over all
files in order (lines 296-334). -/
def buildCalledByGraph (files : Files) : Graph :=
  files.foldl (fun g p => collectFile g p.2) []

/-- Pass 2 on one function record (lines 342-351): when the bare function name
is a key of `called_by_graph`, attach the caller list as `called_by`
(promoting a bare signature string to a dict); otherwise leave it unchanged. -/
def mergeFunc (g : Graph) (fn : String) (fd : SymRec) : SymRec :=
  match dictGet g fn with
  | some callers =>
    match fd with
    | .dict d => .dict { d with called_by := some callers }
    | .str s => .dict { signature := some s, called_by := some callers }
  | none => fd

/-- Pass 2 on one method record (lines 356-368): look up both the bare method
name and the qualified `Class.method` form, concatenate, and when the result
is non-empty attach `list(set(callers))` (modelled as `List.dedup`, which
agrees with the Python set on membership). -/
def mergeMethod (g : Graph) (cname mname : String) (md : SymRec) : SymRec :=
  let full := cname ++ "." ++ mname
  if (dictGet g mname).isSome || (dictGet g full).isSome then
    let callers := ((dictGet g mname).getD []) ++ ((dictGet g full).getD [])
    if callers.isEmpty then md
    else
      match md with
      | .dict d => .dict { d with called_by := some callers.dedup }
      | .str s => .dict { signature := some s, called_by := some callers.dedup }
  else md

/-- Pass 2 on one class record (lines 353-368), guarded by
`isinstance(class_data, dict) and 'methods' in class_data`. -/
def mergeClassVal (g : Graph) (cname : String) : ClassVal → ClassVal
  | .dict cd =>
    .dict { cd with
      methods := cd.methods.map (fun ms => ms.map (fun p => (p.1, mergeMethod g cname p.1 p.2))) }
  | .str s => .str s

/-- Pass 2 on one file record (lines 337-368). -/
def mergeFileInfo (g : Graph) (fi : FileInfo) : FileInfo :=
  { fi with
    functions := fi.functions.map (fun fs => fs.map (fun p => (p.1, mergeFunc g p.1 p.2)))
    classes := fi.classes.map (fun cs => cs.map (fun p => (p.1, mergeClassVal g p.1 p.2))) }

/-- The complete call-graph phase of `build_index` (lines 296-368): build the
reverse index over the fully populated file mapping, then merge `called_by`
information back into every file record. -/
def build_call_graph (files : Files) : Files :=
  let g := buildCalledByGraph files
  files.map (fun p => (p.1, mergeFileInfo g p.2))

/-- The `called_by` list of a symbol record (absent on bare strings and on
dicts without the key). -/
def symCalledBy : SymRec → List String
  | .str _ => []
  | .dict d => d.called_by.getD []

/-- There is a symbol (function, or `Class.method`) with bare name `b`
somewhere in `files` whose record is a dict whose `calls` list contains `c`.
This is exactly the set of forward edges pass 1 registers. -/
def HasCallEdge (files : Files) (b c : String) : Prop :=
  ∃ fp fi, (fp, fi) ∈ files ∧
    ((∃ funcs d cs, fi.functions = some funcs ∧ (b, SymRec.dict d) ∈ funcs ∧
        d.calls = some cs ∧ c ∈ cs) ∨
     (∃ cls cn cd ms mn d cs, fi.classes = some cls ∧ (cn, ClassVal.dict cd) ∈ cls ∧
        cd.methods = some ms ∧ (mn, SymRec.dict d) ∈ ms ∧ d.calls = some cs ∧ c ∈ cs ∧
        b = cn ++ "." ++ mn))

/-- Decidable check that every symbol record (function or method) in a file
mapping is in structured dict form: the property the spec's SymbolRecord
invariant asserts of the call-graph builder's output. -/
def allSymbolsStructured (files : Files) : Bool :=
  files.all (fun p =>
    ((p.2.functions.getD []).all (fun q =>
        match q.2 with
        | .str _ => false
        | .dict _ => true)) &&
    ((p.2.classes.getD []).all (fun q =>
        match q.2 with
        | .dict cd =>
          (cd.methods.getD []).all (fun r =>
            match r.2 with
            | .str _ => false
            | .dict _ => true)
        | .str _ => true)))

/-- Split a list of characters on `/` (CPython `s.split('/')`: the result
always has at least one part, and empty parts are kept). -/
def splitSlashAux (cur : List Char) : List Char → List (List Char)
  | [] => [cur.reverse]
  | c :: cs => if c = '/' then cur.reverse :: splitSlashAux [] cs else splitSlashAux (c :: cur) cs

/-- Python `s.split('/')` on a path string. -/
def splitSlash (s : String) : List String :=
  (splitSlashAux [] s.data).map (fun l => String.mk l)

/-- Python `'/'.join(parts)`. -/
def joinSlash (parts : List String) : String :=
  joinStrSep "/" parts

/-- `str(Path(p).parent)` for the relative POSIX paths used as `index['files']`
keys: drop the last `/`-component; a single component (and `.` itself) has
parent `.`. -/
def pathParent (p : String) : String :=
  let parts := splitSlash p
  if parts.length ≤ 1 then "." else joinSlash parts.dropLast

/-- `str(Path(d) / r)` for the joins the resolver performs: joining the empty
remainder gives the directory itself, and joining onto `.` gives the bare
remainder, exactly as `pathlib` renders them. -/
def pathJoin (d r : String) : String :=
  if r = "" then d else if d = "." then r else d ++ "/" ++ r

/-- `p.isPrefixOf`-style check on raw characters, used for the `startswith`
tests of the resolver and for glob matching. -/
def startsWithList : List Char → List Char → Bool
  | [], _ => true
  | _ :: _, [] => false
  | p :: ps, c :: cs => p = c && startsWithList ps cs

/-- Python `s.startswith(p)`. -/
def strStarts (p s : String) : Bool :=
  startsWithList p.data s.data

/-- Python `s.endswith(suf)`. -/
def strEnds (suf s : String) : Bool :=
  startsWithList suf.data.reverse s.data.reverse

/-- Python `s[n:]` on the strings the resolver slices. -/
def strDrop (n : Nat) (s : String) : String :=
  String.mk (s.data.drop n)

/-- `f` applied `n` times (the `for _ in range(up_levels): target_dir =
target_dir.parent` walk). -/
def iterate' {α : Type} (f : α → α) : Nat → α → α
  | 0, a => a
  | n + 1, a => iterate' f n (f a)

/-- Membership of a key in the `index['files']` dict. -/
def filesHasKey (files : Files) (k : String) : Bool :=
  (dictGet files k).isSome

/-- The extension probe of the resolver (lines 279-284): try
`resolved + ext` for each known source extension and finally the empty
extension, in order, against the keys of `index['files']`; the first hit is
recorded (on POSIX the `replace('\\', '/')` is the identity). -/
def firstExtMatch (files : Files) (resolved : String) : Option String :=
  match [".py", ".js", ".ts", ".jsx", ".tsx", ""].find? (fun ext => filesHasKey files (resolved ++ ext)) with
  | some ext => some (resolved ++ ext)
  | none => none

/-- Resolution of one relative import string (lines 261-277): `./x` joins the
file's directory with `x`; an ascending import counts its `..` segments,
walks that many parents up, and joins the remaining segments; any other
`.`-leading import (e.g. `from . import X`) resolves to the file's own
directory. -/
def resolveRelativeImport (file_dir imp : String) : String :=
  if strStarts "./" imp then
    pathJoin file_dir (strDrop 2 imp)
  else if strStarts "../" imp then
    let parts := splitSlash imp
    let up_levels := (parts.filter (fun p => p = "..")).length
    let target_dir := iterate' pathParent up_levels file_dir
    let remaining := joinSlash (parts.filter (fun p => p ≠ ".."))
    if remaining ≠ "" then pathJoin target_dir remaining else target_dir
  else file_dir

/-- The dependency list computed for one file (lines 256-287): relative
imports are resolved and kept only when the extension probe finds them in the
file mapping; non-relative imports are recorded verbatim as external
dependencies. -/
def depsForFile (files : Files) (file_path : String) (imports : List String) : List String :=
  let file_dir := pathParent file_path
  imports.foldl
    (fun deps imp =>
      if strStarts "." imp then
        match firstExtMatch files (resolveRelativeImport file_dir imp) with
        | some dep => deps ++ [dep]
        | none => deps
      else deps ++ [imp])
    []

/-- The Dependency Graph Resolver (lines 249-294): every file whose record has
a truthy `imports` list contributes its resolved dependency list, and only
non-empty lists are recorded. -/
def build_dependency_graph (files : Files) : List (String × List String) :=
  files.foldl
    (fun g p =>
      match p.2.imports with
      | some imps =>
        if imps.isEmpty then g
        else
          let deps := depsForFile files p.1 imps
          if deps.isEmpty then g else g ++ [(p.1, deps)]
      | none => g)
    []

/-- Aggregate statistics (`index['stats']`, lines 123-129): the per-language
counter dicts are association lists in insertion order. -/
structure Stats where
  total_files : Nat := 0
  total_directories : Nat := 0
  fully_parsed : List (String × Nat) := []
  listed_only : List (String × Nat) := []
  markdown_files : Nat := 0
deriving DecidableEq

/-- One entry of `index['documentation_map']`, as returned by the external
`extract_markdown_structure` collaborator (spec section 6: section headers
plus architecture hints). -/
structure MarkdownDoc where
  sections : List String := []
  architecture_hints : List String := []
deriving DecidableEq

/-- The Snapshot (`index` dict of `build_index`, lines 113-132 plus the
`staleness_check` key added at line 372), with keys in insertion order.
`project_structure` has the fixed shape `{'type': 'tree', 'root': '.', 'tree':
tree_lines}`, so only the line list is carried. `staleness_check` is a POSIX
timestamp; it is carried as an integer number of seconds. -/
structure Index where
  indexed_at : String := ""
  root : String := ""
  tree : List String := []
  documentation_map : List (String × MarkdownDoc) := []
  directory_purposes : List (String × String) := []
  stats : Stats := {}
  files : Files := []
  dependency_graph : List (String × List String) := []
  staleness_check : Int := 0
deriving DecidableEq

/-- One hexadecimal digit, lower case, for `\uXXXX` escapes. -/
def hexDigit (n : Nat) : Char :=
  if n < 10 then Char.ofNat (48 + n) else Char.ofNat (87 + n)

/-- CPython `json` string escaping with `ensure_ascii` (the default used by
`json.dumps`): backslash, quote and the common control characters get
two-character escapes, every other character outside the printable ASCII
range `0x20`-`0x7e` becomes `\uXXXX`. (Astral-plane characters, which CPython
renders as a surrogate pair, are rendered as a single escape here; no witness
uses one.) -/
def escChar (c : Char) : List Char :=
  if c = '"' then ['\\', '"']
  else if c = '\\' then ['\\', '\\']
  else if c = Char.ofNat 10 then ['\\', 'n']
  else if c = Char.ofNat 9 then ['\\', 't']
  else if c = Char.ofNat 13 then ['\\', 'r']
  else if c = Char.ofNat 8 then ['\\', 'b']
  else if c = Char.ofNat 12 then ['\\', 'f']
  else if c.toNat < 32 ∨ 126 < c.toNat then
    ['\\', 'u', hexDigit (c.toNat / 4096 % 16), hexDigit (c.toNat / 256 % 16),
     hexDigit (c.toNat / 16 % 16), hexDigit (c.toNat % 16)]
  else [c]

/-- Escape a character list (the body of a JSON string). -/
def escapeChars : List Char → List Char
  | [] => []
  | c :: cs => escChar c ++ escapeChars cs

/-- A JSON string literal. -/
def dumpStr (s : String) : List Char :=
  '"' :: escapeChars s.data ++ ['"']

/-- A JSON number from a `Nat`. -/
def dumpNat (n : Nat) : List Char :=
  (toString n).data

/-- A JSON number from an `Int`. -/
def dumpInt (n : Int) : List Char :=
  (toString n).data

/-- A JSON boolean. -/
def dumpBool (b : Bool) : List Char :=
  if b then ['t', 'r', 'u', 'e'] else ['f', 'a', 'l', 's', 'e']

/-- `json.dumps(..., indent=2)` newline plus indentation for nesting level
`lvl`. -/
def nlIndent (lvl : Nat) : List Char :=
  '\n' :: List.replicate (2 * lvl) ' '

/-- A JSON object at nesting level `lvl` from pre-rendered key and value
texts, following CPython's `indent=2` layout: `{}` when empty, otherwise each
`"key": value` on its own indented line, comma-separated, with the closing
brace on a fresh line at the enclosing indent. -/
def dumpObj (lvl : Nat) : List (List Char × List Char) → List Char
  | [] => ['{', '}']
  | f :: fs =>
    '{' :: (joinSep [','] ((f :: fs).map (fun q => nlIndent (lvl + 1) ++ q.1 ++ [':', ' '] ++ q.2)))
      ++ nlIndent lvl ++ ['}']

/-- A JSON array at nesting level `lvl` from pre-rendered item texts, with
the same layout rules as `dumpObj`. -/
def dumpArr (lvl : Nat) : List (List Char) → List Char
  | [] => ['[', ']']
  | x :: xs =>
    '[' :: (joinSep [','] ((x :: xs).map (fun it => nlIndent (lvl + 1) ++ it)))
      ++ nlIndent lvl ++ [']']

/-- An array of strings. -/
def dumpStrArr (lvl : Nat) (xs : List String) : List Char :=
  dumpArr lvl (xs.map dumpStr)

/-- A counter dict such as `stats['fully_parsed']`. -/
def dumpCounter (lvl : Nat) (m : List (String × Nat)) : List Char :=
  dumpObj lvl (m.map (fun p => (dumpStr p.1, dumpNat p.2)))

/-- A symbol record: a bare string or a dict whose present keys are rendered
in insertion order (`signature`, then `calls`, then `called_by`). -/
def dumpSymRec (lvl : Nat) : SymRec → List Char
  | .str s => dumpStr s
  | .dict d =>
    dumpObj lvl
      ((match d.signature with
        | some s => [(dumpStr "signature", dumpStr s)]
        | none => []) ++
       (match d.calls with
        | some cs => [(dumpStr "calls", dumpStrArr (lvl + 1) cs)]
        | none => []) ++
       (match d.called_by with
        | some cb => [(dumpStr "called_by", dumpStrArr (lvl + 1) cb)]
        | none => []))

/-- A class record: a bare string or its `methods` dict. -/
def dumpClassVal (lvl : Nat) : ClassVal → List Char
  | .str s => dumpStr s
  | .dict cd =>
    dumpObj lvl
      (match cd.methods with
       | some ms => [(dumpStr "methods", dumpObj (lvl + 1) (ms.map (fun p => (dumpStr p.1, dumpSymRec (lvl + 2) p.2))))]
       | none => [])

/-- The field list of one `file_info` dict in insertion order (lines 184-212:
`language`, `parsed`, optional `purpose`, then the keys of
`file_info.update(extracted)`). -/
def fileInfoFields (lvl : Nat) (fi : FileInfo) : List (List Char × List Char) :=
  [(dumpStr "language", dumpStr fi.language), (dumpStr "parsed", dumpBool fi.parsed)] ++
  (match fi.purpose with
   | some s => [(dumpStr "purpose", dumpStr s)]
   | none => []) ++
  (match fi.functions with
   | some fs => [(dumpStr "functions", dumpObj (lvl + 1) (fs.map (fun p => (dumpStr p.1, dumpSymRec (lvl + 2) p.2))))]
   | none => []) ++
  (match fi.classes with
   | some cs => [(dumpStr "classes", dumpObj (lvl + 1) (cs.map (fun p => (dumpStr p.1, dumpClassVal (lvl + 2) p.2))))]
   | none => []) ++
  (match fi.imports with
   | some imps => [(dumpStr "imports", dumpStrArr (lvl + 1) imps)]
   | none => [])

/-- One `file_info` dict. -/
def dumpFileInfo (lvl : Nat) (fi : FileInfo) : List Char :=
  dumpObj lvl (fileInfoFields lvl fi)

/-- One documentation-map entry. -/
def dumpMarkdownDoc (lvl : Nat) (d : MarkdownDoc) : List Char :=
  dumpObj lvl
    [(dumpStr "sections", dumpStrArr (lvl + 1) d.sections),
     (dumpStr "architecture_hints", dumpStrArr (lvl + 1) d.architecture_hints)]

/-- The `stats` dict. -/
def dumpStats (lvl : Nat) (st : Stats) : List Char :=
  dumpObj lvl
    [(dumpStr "total_files", dumpNat st.total_files),
     (dumpStr "total_directories", dumpNat st.total_directories),
     (dumpStr "fully_parsed", dumpCounter (lvl + 1) st.fully_parsed),
     (dumpStr "listed_only", dumpCounter (lvl + 1) st.listed_only),
     (dumpStr "markdown_files", dumpNat st.markdown_files)]

/-- The top-level field list of the index, in insertion order (lines 113-132
and 372). -/
def indexFields (index : Index) : List (List Char × List Char) :=
  [(dumpStr "indexed_at", dumpStr index.indexed_at),
   (dumpStr "root", dumpStr index.root),
   (dumpStr "project_structure",
     dumpObj 1
       [(dumpStr "type", dumpStr "tree"),
        (dumpStr "root", dumpStr "."),
        (dumpStr "tree", dumpStrArr 2 index.tree)]),
   (dumpStr "documentation_map",
     dumpObj 1 (index.documentation_map.map (fun p => (dumpStr p.1, dumpMarkdownDoc 2 p.2)))),
   (dumpStr "directory_purposes",
     dumpObj 1 (index.directory_purposes.map (fun p => (dumpStr p.1, dumpStr p.2)))),
   (dumpStr "stats", dumpStats 1 index.stats),
   (dumpStr "files",
     dumpObj 1 (index.files.map (fun p => (dumpStr p.1, dumpFileInfo 2 p.2)))),
   (dumpStr "dependency_graph",
     dumpObj 1 (index.dependency_graph.map (fun p => (dumpStr p.1, dumpStrArr 2 p.2)))),
   (dumpStr "staleness_check", dumpInt index.staleness_check)]

/-- `json.dumps(index, indent=2)` as a character list. -/
def dumps (index : Index) : List Char :=
  dumpObj 0 (indexFields index)

/-- `len(json.dumps(index, indent=2))`. -/
def jsonLen (index : Index) : Nat :=
  (dumps index).length

/-- `MAX_INDEX_SIZE = 1024 * 1024` (line 37). -/
def MAX_INDEX_SIZE : Nat := 1024 * 1024

/-- The body of the compression `for` loop (lines 397-400): scan
`list(index['files'].items())` in order and delete the first record whose
`parsed` flag is not truthy; `none` when every record is parsed and the scan
falls through without deleting anything. -/
def removeFirstUnparsed : Files → Option Files
  | [] => none
  | (p, fi) :: rest =>
    if fi.parsed = false then some rest
    else (removeFirstUnparsed rest).map (fun r => (p, fi) :: r)

/-- The `while` loop of `compress_index_if_needed` (lines 395-400), with an
explicit fuel bound: `none` means the loop has not terminated within `fuel`
iterations. Each iteration re-tests
`len(json.dumps(index, indent=2)) > MAX_INDEX_SIZE and index['files']` and
runs the scan-and-delete body; an iteration whose scan deletes nothing leaves
the index unchanged. -/
def compressLoop : Nat → Index → Option Index
  | 0, _ => none
  | fuel + 1, index =>
    if MAX_INDEX_SIZE < jsonLen index ∧ index.files ≠ [] then
      match removeFirstUnparsed index.files with
      | some files' => compressLoop fuel { index with files := files' }
      | none => compressLoop fuel index
    else some index

/-- `compress_index_if_needed` (lines 380-402): return the index unchanged
when it serializes within budget; otherwise truncate the tree to its first
100 lines plus a marker when it is longer than 100 lines, then run the
record-removal loop (with fuel, see `compressLoop`). -/
def compress_index_if_needed (fuel : Nat) (index : Index) : Option Index :=
  if jsonLen index ≤ MAX_INDEX_SIZE then some index
  else
    let index :=
      if 100 < index.tree.length then
        { index with tree := index.tree.take 100 ++ ["... (truncated)"] }
      else index
    compressLoop fuel index

/-- The dict returned by `get_file_level_changes` (lines 506-539). -/
structure FileChanges where
  files_added : List String := []
  files_removed : List String := []
  files_modified : List String := []
deriving DecidableEq

/-- The `file_changes` slot of `change_data`: the initial empty dict `{}`
(line 606) or a populated `FileChanges` dict. -/
inductive FCVal
  | empty
  | fc (c : FileChanges)
deriving DecidableEq

/-- The `change_data` dict of `analyze_changes` (lines 603-609). `old_stats`
and `new_stats` are `none` while they still hold the initial `{}`. -/
structure ChangeData where
  old_stats : Option Stats := none
  new_stats : Option Stats := none
  file_changes : FCVal := .empty
  significance_level : String := "auto_approved"
  notes : String := ""
deriving DecidableEq

/-- `get_file_level_changes` (lines 506-539). With no old index, every
current file is added. Otherwise the added / removed lists are the set
differences of the key sets, and a common file is modified when its
function count or class count differs. Python's `set` iteration order is
unspecified; the key sets are modelled as deduplicated key lists, which
agree with the sets on membership and length. -/
def get_file_level_changes (old : Option Index) (new : Index) : FileChanges :=
  match old with
  | none => { files_added := new.files.map (fun p => p.1) }
  | some o =>
    let old_files := (o.files.map (fun p => p.1)).dedup
    let new_files := (new.files.map (fun p => p.1)).dedup
    let files_added := new_files.filter (fun f => ¬ old_files.contains f)
    let files_removed := old_files.filter (fun f => ¬ new_files.contains f)
    let files_modified :=
      (old_files.filter (fun f => new_files.contains f)).filter (fun f =>
        let ofi := (dictGet o.files f).getD {}
        let nfi := (dictGet new.files f).getD {}
        ((ofi.functions.getD []).length ≠ (nfi.functions.getD []).length) ∨
        ((ofi.classes.getD []).length ≠ (nfi.classes.getD []).length))
    { files_added := files_added, files_removed := files_removed,
      files_modified := files_modified }

/-- The readability status of the prior snapshot as `analyze_changes`
observes it: no file at the old path (or no backup at all), a file whose
`json.load` raises (with the exception's message), or a successfully decoded
prior index. -/
inductive Prior
  | noPrior
  | unreadable (emsg : String)
  | readable (old : Index)
deriving DecidableEq

/-- Python `f"{n:+d}"`. -/
def fmtPlus (n : Int) : String :=
  if 0 ≤ n then "+" ++ toString n else toString n

/-- Python `f"{q:.1%}"` on the (non-negative) parse ratios: the value as a
percentage with one decimal place. CPython rounds the underlying float
half-to-even; this model rounds half-up, a difference confined to this
free-text note, which no theorem inspects. -/
def fmtPercent1 (q : ℚ) : String :=
  let t : Int := round (q * 1000)
  toString (t / 10) ++ "." ++ toString (t % 10) ++ "%"

/-- `analyze_changes` (lines 601-731), branching on the observed state of the
prior snapshot exactly as the source does: no prior (lines 618-623),
unreadable prior (lines 625-631), or a decoded prior index (lines 633-731).
Python's float arithmetic on the parse ratios (`old_parsed / old_files`,
threshold literal `0.2`) is modelled by exact rational arithmetic. -/
def analyze_changes : Prior → Index → Bool × ChangeData
  | .noPrior, new =>
    (false,
     { old_stats := none, new_stats := some new.stats,
       file_changes := .fc (get_file_level_changes none new),
       significance_level := "auto_approved",
       notes := "Initial index creation" })
  | .unreadable emsg, _ =>
    (false,
     { old_stats := none, new_stats := none, file_changes := .empty,
       significance_level := "auto_approved",
       notes := "Could not read previous index: " ++ emsg })
  | .readable old, new =>
    let old_stats := old.stats
    let new_stats := new.stats
    let old_files := old_stats.total_files
    let new_files := new_stats.total_files
    let file_change : Int := (new_files : Int) - (old_files : Int)
    let dir_change : Int := (new_stats.total_directories : Int) - (old_stats.total_directories : Int)
    let fc := get_file_level_changes (some old) new
    let sig1 : Bool := if 10 < file_change.natAbs then true else false
    let reasons1 : List String :=
      if 10 < file_change.natAbs then
        ["Large file count change: " ++ toString file_change.natAbs ++ " files"]
      else []
    let sig2 := if 5 < dir_change.natAbs then true else sig1
    let reasons2 :=
      if 5 < dir_change.natAbs then
        reasons1 ++ ["Large directory count change: " ++ toString dir_change.natAbs ++ " directories"]
      else reasons1
    let sig3 := if 5 < fc.files_removed.length then true else sig2
    let reasons3 :=
      if 5 < fc.files_removed.length then
        reasons2 ++ ["Many files removed: " ++ toString fc.files_removed.length]
      else reasons2
    let old_parsed := (old_stats.fully_parsed.map (fun p => p.2)).sum
    let new_parsed := (new_stats.fully_parsed.map (fun p => p.2)).sum
    let old_ratio : ℚ := (old_parsed : ℚ) / (old_files : ℚ)
    let new_ratio : ℚ := (new_parsed : ℚ) / (new_files : ℚ)
    let ratio_change := |new_ratio - old_ratio|
    let sig4 :=
      if 0 < old_files ∧ 0 < new_files then
        (if (1 : ℚ) / 5 < ratio_change then true else sig3)
      else sig3
    let reasons4 :=
      if 0 < old_files ∧ 0 < new_files then
        (if (1 : ℚ) / 5 < ratio_change then
          reasons3 ++ ["Parsing ratio changed: " ++ fmtPercent1 old_ratio ++ " → " ++ fmtPercent1 new_ratio]
         else reasons3)
      else reasons3
    (sig4,
     { old_stats := some old_stats, new_stats := some new_stats,
       file_changes := .fc fc,
       significance_level := if sig4 then "requires_confirmation" else "auto_approved",
       notes :=
         if sig4 then joinStrSep "; " reasons4
         else "Routine update: " ++ fmtPlus file_change ++ " files, " ++ fmtPlus dir_change ++ " directories" })

/-- The significance predicate as the spec words it (section 4.4): any of a
file-count delta of absolute value above 10, a directory-count delta above 5,
more than 5 removed files, or a shift of the fully-parsed-to-total-files
ratio of more than 20 percentage points between versions (the ratios only
being defined when both versions have files). -/
def spec_significant (old new : Index) : Bool :=
  decide (10 < ((new.stats.total_files : Int) - (old.stats.total_files : Int)).natAbs) ||
  decide (5 < ((new.stats.total_directories : Int) - (old.stats.total_directories : Int)).natAbs) ||
  decide (5 < (get_file_level_changes (some old) new).files_removed.length) ||
  decide (0 < old.stats.total_files ∧ 0 < new.stats.total_files ∧
    (1 : ℚ) / 5 <
      |(((new.stats.fully_parsed.map (fun p => p.2)).sum : ℚ) / (new.stats.total_files : ℚ)) -
       (((old.stats.fully_parsed.map (fun p => p.2)).sum : ℚ) / (old.stats.total_files : ℚ))|)

/-- One file of the backup directory, with its name and modification time. -/
structure DirEntry where
  name : String
  mtime : Nat
deriving DecidableEq

/-- `fnmatch` of a file name against the glob `PROJECT_INDEX_*.json` used by
`backup_dir.glob(backup_pattern)` (lines 487-488): the name must carry the
literal prefix and suffix around an arbitrary (possibly empty) middle;
directory-entry names contain no `/`, so `*` is unrestricted. -/
def matchesBackupGlob (name : String) : Bool :=
  strStarts "PROJECT_INDEX_" name && strEnds ".json" name && decide (19 ≤ name.data.length)

/-- Stable insertion of an entry into a list sorted by descending `mtime`. -/
def insertMtimeDesc (e : DirEntry) : List DirEntry → List DirEntry
  | [] => [e]
  | x :: xs => if x.mtime ≤ e.mtime then e :: x :: xs else x :: insertMtimeDesc e xs

/-- `backup_files.sort(key=lambda x: x.stat().st_mtime, reverse=True)`
(line 491), modelled by insertion sort; the claims depend only on which
entries end up in the kept / dropped slices. -/
def sortMtimeDesc : List DirEntry → List DirEntry
  | [] => []
  | x :: xs => insertMtimeDesc x (sortMtimeDesc xs)

/-- `manage_backup_rotation` (lines 483-504): glob `PROJECT_INDEX_*.json` in
the backup directory, sort by modification time newest-first, and unlink
every file beyond `max_backups`. The result is the remaining directory
listing paired with the names deleted (each deletion is also logged by the
source). -/
def manage_backup_rotation (dir : List DirEntry) (max_backups : Nat) :
    List DirEntry × List String :=
  let backup_files := dir.filter (fun f => matchesBackupGlob f.name)
  if max_backups < backup_files.length then
    let files_to_remove := (sortMtimeDesc backup_files).drop max_backups
    let names := files_to_remove.map (fun f => f.name)
    (dir.filter (fun f => ¬ names.contains f.name), names)
  else (dir, [])

/-- The decoded content of a JSON file on disk: a valid snapshot or bytes
`json.load` rejects (with the exception message). -/
inductive JFile
  | valid (i : Index)
  | corrupt (emsg : String)
deriving DecidableEq

/-- The on-disk state the persistence layer touches: the final
`PROJECT_INDEX.json`, the timestamped backup copy, and the `.json.tmp`
temporary file. `none` means the file does not exist. -/
structure FS where
  output : Option JFile := none
  backupFile : Option JFile := none
  temp : Option Index := none
deriving DecidableEq

/-- Failure injection for `safe_save_index`: whether the temp-file write, the
atomic replace, or the rollback `shutil.copy2` raises. -/
structure SaveInj where
  tempWrite : Bool := false
  replace : Bool := false
  rollbackCopy : Bool := false
deriving DecidableEq

/-- The `backup_path` argument of `safe_save_index` as Python values flow into
it: `None`, a `pathlib.Path`, or the `BackupInfo` holder object returned by
`create_backup` (which carries the path in its `.path` attribute and has no
`.exists` method). -/
inductive BackupArg
  | pyNone
  | path (p : String)
  | info (p : String)
deriving DecidableEq

/-- A Python exception escaping a modelled function. -/
inductive PyExc
  | attributeError
  | ioError
deriving DecidableEq

/-- The `except` block of `safe_save_index` (lines 761-773): with a truthy
`backup_path`, evaluate `backup_path.exists()` - on the `BackupInfo` object
this raises `AttributeError` (the class defines no `exists`), which escapes
the function because it occurs outside the inner `try`; on a `Path` whose
file exists, `shutil.copy2` restores the backup over the output, and a copy
failure is caught and reported without re-raising. The function returns
`False` on every non-raising path here. -/
def save_failure_handler (fs : FS) (inj : SaveInj) (backup_path : BackupArg) :
    FS × Except PyExc Bool :=
  match backup_path with
  | .pyNone => (fs, .ok false)
  | .info _ => (fs, .error .attributeError)
  | .path _ =>
    if fs.backupFile.isSome then
      if inj.rollbackCopy then (fs, .ok false)
      else ({ fs with output := fs.backupFile }, .ok false)
    else (fs, .ok false)

/-- `safe_save_index` (lines 749-773): write the serialized index to
`PROJECT_INDEX.json.tmp`, atomically replace the output path with it, and
return `True`; on a write or replace failure, fall into
`save_failure_handler`. -/
def safe_save_index (index : Index) (fs : FS) (inj : SaveInj) (backup_path : BackupArg) :
    FS × Except PyExc Bool :=
  if inj.tempWrite then save_failure_handler fs inj backup_path
  else
    let fs1 := { fs with temp := some index }
    if inj.replace then save_failure_handler fs1 inj backup_path
    else ({ fs1 with output := some (.valid index), temp := none }, .ok true)

/-- `create_backup` (lines 548-599), reduced to its dataflow: with no
existing `PROJECT_INDEX.json` it returns `None`; otherwise it copies the
output file into the backup directory and returns the `BackupInfo` holder
object (line 595) - `.pyNone` when the copy raises (lines 597-599). Log
loading and rotation, modelled separately, do not change this value. -/
def create_backup (fs : FS) (copyOk : Bool) : FS × BackupArg :=
  match fs.output with
  | none => (fs, .pyNone)
  | some content =>
    if copyOk then ({ fs with backupFile := some content }, .info "PROJECT_INDEX_backup")
    else (fs, .pyNone)

/-- One entry of the backup log, restricted to the fields the claims
observe. -/
structure LogEntry where
  significance_level : String := "unknown"
  operation_success : Bool := true
  notes : String := ""
deriving DecidableEq

/-- `log_backup_creation` (lines 541-546): append the entry and keep only the
last 100. -/
def log_backup_creation (entries : List LogEntry) (e : LogEntry) : List LogEntry :=
  let es := entries ++ [e]
  if 100 < es.length then es.drop (es.length - 100) else es

/-- `complete_backup_log` (lines 775-807): with no backup holder (`None`, or
a value without the `_backup_info` attribute) it returns without appending
anything; otherwise it appends exactly one entry completing the pending
backup record with the analysis results and the success flag (the notes gain
`" | Success: False"` on failure). The result is the list of entries this
call appends. -/
def complete_backup_log (backup_info : BackupArg) (change_data : Option ChangeData)
    (success : Bool) : List LogEntry :=
  match backup_info with
  | .info _ =>
    [{ significance_level :=
         (change_data.map (fun cd => cd.significance_level)).getD "unknown",
       operation_success := success,
       notes :=
         (change_data.map (fun cd => cd.notes)).getD "" ++
         (if success then "" else " | Success: False") }]
  | _ => []

/-- `confirm_update` (lines 733-747): non-significant changes are
auto-approved; otherwise the operator's answer decides (`False` also models
`EOFError` / `KeyboardInterrupt`). -/
def confirm_update (significant : Bool) (operator_yes : Bool) : Bool :=
  if significant = false then true else operator_yes

/-- The externally determined outcomes of one default-action run: the state
of any existing `PROJECT_INDEX.json`, whether the backup copy succeeds,
the result of `build_index` (`none` = it raised), the operator's
confirmation answer, and the persistence failure injection. -/
structure RunEnv where
  priorFile : Option JFile := none
  backupCopyOk : Bool := true
  buildResult : Option Index := none
  operatorYes : Bool := true
  inj : SaveInj := {}
deriving DecidableEq

/-- How `analyze_changes` observes the prior snapshot, given the backup
holder returned by `create_backup` and the backup file's content: with no
holder the old path is `None` and the no-prior branch runs; with a holder
the freshly written backup copy exists, and decoding it yields the prior
index or raises. -/
def priorOf (arg : BackupArg) (backupFile : Option JFile) : Prior :=
  match arg, backupFile with
  | .pyNone, _ => .noPrior
  | .path _, _ => .noPrior
  | .info _, none => .noPrior
  | .info _, some (.valid old) => .readable old
  | .info _, some (.corrupt e) => .unreadable e

/-- The default build-and-update action of `main` (lines 875-938), returning
the backup-log entries appended during the run. Step 1 creates the backup;
a build failure appends a failure entry and aborts (lines 887-893); a
declined confirmation appends a failure entry and aborts (lines 899-902); a
`safe_save_index` returning `False` appends a failure entry (lines 905-907),
and an exception escaping it reaches the outer handler, which also appends a
failure entry (lines 936-938); on success one success entry is appended
(line 910). -/
def mainDefault (env : RunEnv) : List LogEntry :=
  let fs0 : FS := { output := env.priorFile }
  let (fs1, arg) := create_backup fs0 env.backupCopyOk
  match env.buildResult with
  | none => complete_backup_log arg none false
  | some index =>
    let (significant, change_data) := analyze_changes (priorOf arg fs1.backupFile) index
    if confirm_update significant env.operatorYes then
      match (safe_save_index index fs1 env.inj arg).2 with
      | .ok true => complete_backup_log arg (some change_data) true
      | .ok false => complete_backup_log arg (some change_data) false
      | .error _ => complete_backup_log arg (some change_data) false
    else complete_backup_log arg (some change_data) false

/-- Modelled from the spec: `PARSEABLE_LANGUAGES` lives in `index_utils.py`,
which is not part of this repository snapshot; per spec sections 1 and 6 the
extraction side is an external collaborator. The table maps the source-file
suffixes dispatched at lines 200-205 to per-language stat keys. -/
def PARSEABLE_LANGUAGES : List (String × String) :=
  [(".py", "python"), (".js", "javascript"), (".jsx", "javascript"),
   (".ts", "typescript"), (".tsx", "typescript"), (".sh", "shell"), (".bash", "shell")]

/-- Modelled from the spec: `get_language_name` of `index_utils.py` returns a
display language tag for a suffix (used as the `language` field and the
`listed_only` key). -/
def get_language_name (suffix : String) : String :=
  (dictGet [(".py", "python"), (".js", "javascript"), (".jsx", "javascript"),
            (".ts", "typescript"), (".tsx", "typescript"), (".sh", "shell"),
            (".bash", "shell"), (".md", "markdown")] suffix).getD "text"

/-- What the extraction attempt on one parseable code file produced: the
extractor's `{functions, classes}` dict (plus any `imports` list it carries),
or a raised exception (lines 219-222). -/
inductive ExtractOutcome
  | ok (functions : List (String × SymRec)) (classes : List (String × ClassVal))
      (imports : Option (List String))
  | err
deriving DecidableEq

/-- The per-code-file body of the `build_index` walk (lines 181-229): start
from `{language, parsed: False}` plus any inferred purpose; for a suffix in
`PARSEABLE_LANGUAGES`, a successful extraction updates the record and marks
it parsed only when it found functions or classes, and then increments
`stats['fully_parsed'][lang_key]` unconditionally, while a raising extraction
increments `stats['listed_only'][language]`; an unparseable suffix also
counts as listed-only. -/
def processCodeFile (suffix : String) (purpose : Option String)
    (outcome : ExtractOutcome) (stats : Stats) : FileInfo × Stats :=
  let language := get_language_name suffix
  let fi : FileInfo := { language := language, parsed := false, purpose := purpose }
  match dictGet PARSEABLE_LANGUAGES suffix with
  | some lang_key =>
    match outcome with
    | .ok funcs classes imps =>
      let fi :=
        if funcs.isEmpty = false ∨ classes.isEmpty = false then
          { fi with functions := some funcs, classes := some classes,
                    imports := imps, parsed := true }
        else fi
      (fi, { stats with fully_parsed := statInc stats.fully_parsed lang_key })
    | .err => (fi, { stats with listed_only := statInc stats.listed_only language })
  | none => (fi, { stats with listed_only := statInc stats.listed_only language })

/-- The file-record store and stats accumulated by the walk over the
discovered code files, each given as
`(relative path, suffix, inferred purpose, extraction outcome)`. -/
def buildFilesStats (items : List (String × String × Option String × ExtractOutcome)) :
    Files × Stats :=
  items.foldl
    (fun acc it =>
      let (fi, st) := processCodeFile it.2.1 it.2.2.1 it.2.2.2 acc.2
      (acc.1 ++ [(it.1, fi)], st))
    ([], {})

/-- A purpose string of 1100000 `a` characters, the payload making the
size-governor witness exceed the 1 MiB budget. -/
def c2big : String := String.mk (List.replicate 1100000 'a')

/-- A fully-parsed file record whose serialized size alone exceeds the
budget. -/
def c2fi : FileInfo :=
  { language := "python", parsed := true, purpose := some c2big,
    functions := some [("f", .str "def f():")] }

/-- A snapshot over budget whose only file record is fully parsed: the state
the compression loop can neither shrink nor leave. -/
def c2Index : Index :=
  { indexed_at := "2026-01-01T00:00:00", root := "/proj",
    stats := { total_files := 1, fully_parsed := [("python", 1)] },
    files := [("big.py", c2fi)], staleness_check := 1766620800 }

/-- Call-graph witness input: `f` calls `gg`, whose record is a bare
signature string. -/
def c3Files : Files :=
  [("a.py",
    { language := "python", parsed := true,
      functions := some
        [("f", .dict { signature := some "def f():", calls := some ["gg"] }),
         ("gg", .str "def gg():")] })]

/-- The record of `gg` after the call-graph merge: promoted to a dict whose
`called_by` names its caller. -/
def c3Merged : SymRec :=
  .dict { signature := some "def gg():", called_by := some ["f"] }

/-- A file whose only function is a bare signature string that nothing
calls: pass 2 has no reverse-index entry for it and leaves the bare string
in place. -/
def c4Files : Files :=
  [("a.py", { language := "python", parsed := true,
              functions := some [("lonely", .str "def lonely():")] })]

/-- Call-graph input for the amended-claim witness: a bare-string method that
is called, and therefore promoted. -/
def c4wFiles : Files :=
  [("m.py",
    { language := "python", parsed := true,
      functions := some
        [("caller", .dict { signature := some "def caller():", calls := some ["mm"] })],
      classes := some
        [("K", .dict { methods := some [("mm", .str "def mm(self):")] })] })]

/-- Prior snapshot for the significance threshold witnesses: 20 files, 3
directories, nothing parsed, empty file mapping. -/
def c5old : Index :=
  { stats := { total_files := 20, total_directories := 3 } }

/-- New snapshot differing from `c5old` by exactly 11 files. -/
def c5new11 : Index :=
  { stats := { total_files := 31, total_directories := 3 } }

/-- New snapshot differing from `c5old` by exactly 10 files. -/
def c5new10 : Index :=
  { stats := { total_files := 30, total_directories := 3 } }

/-- A new snapshot with one file, for the unreadable-prior counterexample. -/
def c6new : Index :=
  { stats := { total_files := 1 },
    files := [("x.py", { language := "python" })] }

/-- Dependency-resolver counterexample input: `a/b.py` imports `./c` and
`a/c.py` exists. -/
def c7Files : Files :=
  [("a/b.py", { language := "python", imports := some ["./c"] }),
   ("a/c.py", { language := "python" })]

/-- Dependency-resolver witness input containing both spec scenarios:
`a/b.py` importing `./c` with `a/c.py` present, and `a/b/x.py` importing
`../y` with `a/y.py` present. -/
def c7wFiles : Files :=
  [("a/b.py", { language := "python", imports := some ["./c"] }),
   ("a/c.py", { language := "python" }),
   ("a/b/x.py", { language := "python", imports := some ["../y"] }),
   ("a/y.py", { language := "python" })]

/-- A fully successful first run: no prior `PROJECT_INDEX.json` exists. -/
def firstRunEnv : RunEnv :=
  { priorFile := none, backupCopyOk := true, buildResult := some { stats := { total_files := 1 } },
    operatorYes := true, inj := {} }

/-- A run with a prior snapshot whose `build_index` raises. -/
def buildFailEnv : RunEnv :=
  { priorFile := some (.valid {}), backupCopyOk := true, buildResult := none,
    operatorYes := true, inj := {} }

/-- A backup directory holding ten timestamped snapshot backups plus the
backup log file, which is the oldest file by modification time. -/
def c9Dir : List DirEntry :=
  [{ name := "PROJECT_INDEX_backups_log.json", mtime := 0 },
   { name := "PROJECT_INDEX_20260101_000001.json", mtime := 1 },
   { name := "PROJECT_INDEX_20260101_000002.json", mtime := 2 },
   { name := "PROJECT_INDEX_20260101_000003.json", mtime := 3 },
   { name := "PROJECT_INDEX_20260101_000004.json", mtime := 4 },
   { name := "PROJECT_INDEX_20260101_000005.json", mtime := 5 },
   { name := "PROJECT_INDEX_20260101_000006.json", mtime := 6 },
   { name := "PROJECT_INDEX_20260101_000007.json", mtime := 7 },
   { name := "PROJECT_INDEX_20260101_000008.json", mtime := 8 },
   { name := "PROJECT_INDEX_20260101_000009.json", mtime := 9 },
   { name := "PROJECT_INDEX_20260101_000010.json", mtime := 10 }]

/-- A walk discovering a single empty Python file: the extractor succeeds but
finds no functions and no classes. -/
def c10Items : List (String × String × Option String × ExtractOutcome) :=
  [("empty.py", ".py", none, .ok [] [] none)]

/-- The record of method `mm` after the call-graph merge on `c4wFiles`. -/
def c4wMM : SymRec :=
  .dict { signature := some "def mm(self):", called_by := some ["caller"] }

/-- The class record of `K` after the call-graph merge on `c4wFiles`. -/
def c4wCD : ClassDict :=
  { methods := some [("mm", c4wMM)] }

/-- The file record of `m.py` after the call-graph merge on `c4wFiles`. -/
def c4wOut : FileInfo :=
  { language := "python", parsed := true,
    functions := some
      [("caller", .dict { signature := some "def caller():", calls := some ["mm"] })],
    classes := some [("K", .dict c4wCD)] }

/-- `b` is recorded as a caller of `c` in a reverse-index state: the dict has
an entry for `c` whose list contains `b`. -/
def memG (g : Graph) (c b : String) : Prop :=
  ∃ l, dictGet g c = some l ∧ b ∈ l

/-- A fold step cannot destroy a property each step preserves. -/
theorem foldl_pres {α β : Type} (f : β → α → β) (P : β → Prop)
    (hstep : ∀ b a, P b → P (f b a)) : ∀ (l : List α) (b : β), P b → P (l.foldl f b) := by
  intro l
  induction l with
  | nil => intro b hb; exact hb
  | cons x xs ih => intro b hb; exact ih _ (hstep _ _ hb)

/-- A property established by folding over some list element and preserved by
every step holds of the whole fold. -/
theorem foldl_intro {α β : Type} (f : β → α → β) (P : β → Prop) (x : α)
    (hstep : ∀ b a, P b → P (f b a)) (hx : ∀ b, P (f b x)) :
    ∀ (l : List α) (b : β), x ∈ l → P (l.foldl f b) := by
  intro l
  induction l with
  | nil => intro b h; cases h
  | cons y ys ih =>
    intro b h
    rcases List.mem_cons.mp h with h1 | hmem
    · subst h1
      exact foldl_pres f P hstep ys _ (hx b)
    · exact ih _ hmem

/-- Registering an edge records the caller under the callee's key. -/
theorem memG_addEdge_self (g : Graph) (k n : String) : memG (addEdge g k n) k n := by
  induction g with
  | nil => exact ⟨[n], by simp [addEdge, dictGet], by simp⟩
  | cons p rest ih =>
    obtain ⟨k', v⟩ := p
    by_cases h : k' = k
    · subst h
      exact ⟨v ++ [n], by simp [addEdge, dictGet], by simp⟩
    · obtain ⟨l, hget, hmem⟩ := ih
      exact ⟨l, by simp [addEdge, dictGet, h, hget], hmem⟩

/-- Registering an edge never removes an existing reverse-index membership. -/
theorem memG_addEdge (g : Graph) (c b k n : String) (h : memG g c b) :
    memG (addEdge g k n) c b := by
  induction g with
  | nil => obtain ⟨l, hget, _⟩ := h; simp [dictGet] at hget
  | cons p rest ih =>
    obtain ⟨k', v⟩ := p
    obtain ⟨l, hget, hmem⟩ := h
    by_cases hk : k' = k
    · subst hk
      by_cases hc : k' = c
      · subst hc
        have hvl : v = l := by simpa [dictGet] using hget
        exact ⟨v ++ [n], by simp [addEdge, dictGet], by simp [hvl, hmem]⟩
      · simp only [dictGet, if_neg hc] at hget
        exact ⟨l, by simp [addEdge, dictGet, hc, hget], hmem⟩
    · by_cases hc : k' = c
      · subst hc
        have hvl : v = l := by simpa [dictGet] using hget
        exact ⟨v, by simp [addEdge, dictGet, hk], by simp [hvl, hmem]⟩
      · simp only [dictGet, if_neg hc] at hget
        obtain ⟨l', hget', hmem'⟩ := ih ⟨l, hget, hmem⟩
        exact ⟨l', by simp [addEdge, dictGet, hk, hc, hget'], hmem'⟩

/-- `addCalls` preserves any property preserved by `addEdge`. -/
theorem addCalls_pres (P : Graph → Prop) (hP : ∀ g k n, P g → P (addEdge g k n))
    (g : Graph) (caller : String) (cs : List String) (h : P g) :
    P (addCalls g caller cs) :=
  foldl_pres _ P (fun b a hb => hP b a caller hb) cs g h

/-- `collectFuncs` preserves any property preserved by `addEdge`. -/
theorem collectFuncs_pres (P : Graph → Prop) (hP : ∀ g k n, P g → P (addEdge g k n))
    (g : Graph) (funcs : List (String × SymRec)) (h : P g) :
    P (collectFuncs g funcs) := by
  refine foldl_pres _ P ?_ funcs g h
  intro b a hb
  cases hcs : symCalls a.2 with
  | none => simpa [hcs] using hb
  | some cs => simpa [hcs] using addCalls_pres P hP b a.1 cs hb

/-- `collectMethods` preserves any property preserved by `addEdge`. -/
theorem collectMethods_pres (P : Graph → Prop) (hP : ∀ g k n, P g → P (addEdge g k n))
    (g : Graph) (cname : String) (ms : List (String × SymRec)) (h : P g) :
    P (collectMethods g cname ms) := by
  refine foldl_pres _ P ?_ ms g h
  intro b a hb
  cases hcs : symCalls a.2 with
  | none => simpa [hcs] using hb
  | some cs => simpa [hcs] using addCalls_pres P hP b (cname ++ "." ++ a.1) cs hb

/-- `collectClasses` preserves any property preserved by `addEdge`. -/
theorem collectClasses_pres (P : Graph → Prop) (hP : ∀ g k n, P g → P (addEdge g k n))
    (g : Graph) (cls : List (String × ClassVal)) (h : P g) :
    P (collectClasses g cls) := by
  refine foldl_pres _ P ?_ cls g h
  intro b a hb
  cases hcv : a.2 with
  | str s => simpa [hcv] using hb
  | dict cd =>
    cases hms : cd.methods with
    | none => simpa [hcv, hms] using hb
    | some ms => simpa [hcv, hms] using collectMethods_pres P hP b a.1 ms hb

/-- `collectFile` preserves any property preserved by `addEdge`. -/
theorem collectFile_pres (P : Graph → Prop) (hP : ∀ g k n, P g → P (addEdge g k n))
    (g : Graph) (fi : FileInfo) (h : P g) : P (collectFile g fi) := by
  unfold collectFile
  have h1 : P (match fi.functions with
    | some funcs => collectFuncs g funcs
    | none => g) := by
    cases fi.functions with
    | none => exact h
    | some funcs => exact collectFuncs_pres P hP g funcs h
  cases fi.classes with
  | none => exact h1
  | some cls => exact collectClasses_pres P hP _ cls h1

/-- Registering a caller records it under every callee in its list. -/
theorem memG_addCalls_self (g : Graph) (caller : String) (cs : List String)
    (c : String) (hc : c ∈ cs) : memG (addCalls g caller cs) c caller := by
  refine foldl_intro _ (fun g => memG g c caller) c ?_ ?_ cs g hc
  · intro b a hb
    exact memG_addEdge b c caller a caller hb
  · intro b
    exact memG_addEdge_self b c caller

/-- A function entry with a `calls` list containing `c` leaves its bare name
under `c` after `collectFuncs`. -/
theorem memG_collectFuncs_self (g : Graph) (funcs : List (String × SymRec))
    (fn : String) (d : SymDict) (cs : List String) (c : String)
    (hmem : (fn, SymRec.dict d) ∈ funcs) (hcalls : d.calls = some cs) (hc : c ∈ cs) :
    memG (collectFuncs g funcs) c fn := by
  refine foldl_intro _ (fun g => memG g c fn) (fn, SymRec.dict d) ?_ ?_ funcs g hmem
  · intro b a hb
    cases hcs : symCalls a.2 with
    | none => simpa [hcs] using hb
    | some cs' =>
      simpa [hcs] using
        addCalls_pres (fun g => memG g c fn) (fun g k n h => memG_addEdge g c fn k n h) b a.1 cs' hb
  · intro b
    have : symCalls (SymRec.dict d) = some cs := by simp [symCalls, hcalls]
    simpa [this] using memG_addCalls_self b fn cs c hc

/-- A method entry with a `calls` list containing `c` leaves its
`Class.method` name under `c` after `collectMethods`. -/
theorem memG_collectMethods_self (g : Graph) (cname : String)
    (ms : List (String × SymRec)) (mn : String) (d : SymDict) (cs : List String) (c : String)
    (hmem : (mn, SymRec.dict d) ∈ ms) (hcalls : d.calls = some cs) (hc : c ∈ cs) :
    memG (collectMethods g cname ms) c (cname ++ "." ++ mn) := by
  refine foldl_intro _ (fun g => memG g c (cname ++ "." ++ mn)) (mn, SymRec.dict d) ?_ ?_ ms g hmem
  · intro b a hb
    cases hcs : symCalls a.2 with
    | none => simpa [hcs] using hb
    | some cs' =>
      simpa [hcs] using
        addCalls_pres (fun g => memG g c (cname ++ "." ++ mn))
          (fun g k n h => memG_addEdge g c (cname ++ "." ++ mn) k n h) b (cname ++ "." ++ a.1) cs' hb
  · intro b
    have : symCalls (SymRec.dict d) = some cs := by simp [symCalls, hcalls]
    simpa [this] using memG_addCalls_self b (cname ++ "." ++ mn) cs c hc

/-- A class entry owning such a method leaves the qualified name under `c`
after `collectClasses`. -/
theorem memG_collectClasses_self (g : Graph) (cls : List (String × ClassVal))
    (cn : String) (cd : ClassDict) (ms : List (String × SymRec))
    (mn : String) (d : SymDict) (cs : List String) (c : String)
    (hmemc : (cn, ClassVal.dict cd) ∈ cls) (hms : cd.methods = some ms)
    (hmem : (mn, SymRec.dict d) ∈ ms) (hcalls : d.calls = some cs) (hc : c ∈ cs) :
    memG (collectClasses g cls) c (cn ++ "." ++ mn) := by
  refine foldl_intro _ (fun g => memG g c (cn ++ "." ++ mn)) (cn, ClassVal.dict cd) ?_ ?_ cls g hmemc
  · intro b a hb
    cases hcv : a.2 with
    | str s => simpa [hcv] using hb
    | dict cd' =>
      cases hms' : cd'.methods with
      | none => simpa [hcv, hms'] using hb
      | some ms' =>
        simpa [hcv, hms'] using
          collectMethods_pres (fun g => memG g c (cn ++ "." ++ mn))
            (fun g k n h => memG_addEdge g c (cn ++ "." ++ mn) k n h) b a.1 ms' hb
  · intro b
    simpa [hms] using memG_collectMethods_self b cn ms mn d cs c hmem hcalls hc

/-- Every forward call edge of `files` is recorded in the reverse index by
pass 1: the caller's bare name is under the callee's key. -/
theorem hasCallEdge_memG (files : Files) (b c : String) (h : HasCallEdge files b c) :
    memG (buildCalledByGraph files) c b := by
  obtain ⟨fp, fi, hmem, hcase⟩ := h
  refine foldl_intro _ (fun g => memG g c b) (fp, fi) ?_ ?_ files [] hmem
  · intro g a hg
    exact collectFile_pres (fun g => memG g c b) (fun g k n h => memG_addEdge g c b k n h) g a.2 hg
  · intro g
    rcases hcase with ⟨funcs, d, cs, hf, hfd, hcalls, hc⟩ | ⟨cls, cn, cd, ms, mn, d, cs, hcls, hcd, hms, hmd, hcalls, hc, hb⟩
    · unfold collectFile
      have h1 : memG (collectFuncs g funcs) c b := memG_collectFuncs_self g funcs b d cs c hfd hcalls hc
      rw [hf]
      cases hcl : fi.classes with
      | none => exact h1
      | some cls =>
        exact collectClasses_pres (fun g => memG g c b)
          (fun g k n h => memG_addEdge g c b k n h) _ cls h1
    · unfold collectFile
      subst hb
      rw [hcls]
      cases hfn : fi.functions with
      | none => exact memG_collectClasses_self g cls cn cd ms mn d cs c hcd hms hmd hcalls hc
      | some funcs =>
        exact memG_collectClasses_self _ cls cn cd ms mn d cs c hcd hms hmd hcalls hc

/-- A list with a member is not empty (in the `isEmpty` sense). -/
theorem isEmpty_false_of_mem {α : Type} {a : α} {l : List α} (h : a ∈ l) :
    l.isEmpty = false := by
  cases l with
  | nil => cases h
  | cons x xs => rfl

/-- Pass 2 attaches the full reverse-index list to a function whose name is
keyed there, so every recorded caller appears in its `called_by`. -/
theorem symCalledBy_mergeFunc (g : Graph) (fn : String) (fd : SymRec) (b : String)
    (h : memG g fn b) : b ∈ symCalledBy (mergeFunc g fn fd) := by
  obtain ⟨l, hget, hmem⟩ := h
  cases fd with
  | str s => simp [mergeFunc, hget, symCalledBy, hmem]
  | dict d => simp [mergeFunc, hget, symCalledBy, hmem]

/-- Pass 2 attaches the deduplicated union of the bare-name and
qualified-name caller lists to a method, so every caller recorded under its
bare name appears in its `called_by`. -/
theorem symCalledBy_mergeMethod (g : Graph) (cname mname : String) (md : SymRec) (b : String)
    (h : memG g mname b) : b ∈ symCalledBy (mergeMethod g cname mname md) := by
  obtain ⟨l, hget, hmem⟩ := h
  have hsome : (dictGet g mname).isSome = true := by simp [hget]
  have hcallers : b ∈ (dictGet g mname).getD [] ++ (dictGet g (cname ++ "." ++ mname)).getD [] := by
    simp [hget, hmem]
  have hne : ((dictGet g mname).getD [] ++ (dictGet g (cname ++ "." ++ mname)).getD []).isEmpty = false :=
    isEmpty_false_of_mem hcallers
  cases md with
  | str s =>
    simp only [mergeMethod, hsome, Bool.true_or, if_true, hne, Bool.false_eq_true, if_false,
      symCalledBy]
    simpa [symCalledBy, List.mem_dedup] using hcallers
  | dict d =>
    simp only [mergeMethod, hsome, Bool.true_or, if_true, hne, Bool.false_eq_true, if_false,
      symCalledBy]
    simpa [symCalledBy, List.mem_dedup] using hcallers

/-- Claim C3: after the call-graph build completes, for every file, every
symbol `s` (function or `Class.method`) and every name `c`: if `c` appears in
`s`'s `calls` list, then the bare name of `s` appears in the `called_by` list
of every symbol named `c` (every function named `c`, and every method with
bare name `c`) anywhere in the snapshot. -/
theorem call_graph_symmetry (files : Files) (b c : String)
    (hedge : HasCallEdge files b c)
    (fp' : String) (fi' : FileInfo) (hout : (fp', fi') ∈ build_call_graph files) :
    (∀ funcs fd, fi'.functions = some funcs → (c, fd) ∈ funcs → b ∈ symCalledBy fd) ∧
    (∀ cls cn cd ms md, fi'.classes = some cls → (cn, ClassVal.dict cd) ∈ cls →
      cd.methods = some ms → (c, md) ∈ ms → b ∈ symCalledBy md) := by
  have hg : memG (buildCalledByGraph files) c b := hasCallEdge_memG files b c hedge
  unfold build_call_graph at hout
  rcases List.mem_map.mp hout with ⟨⟨fp0, fi0⟩, hmem0, heq⟩
  have hfi : fi' = mergeFileInfo (buildCalledByGraph files) fi0 := by
    have := congrArg Prod.snd heq
    simpa using this.symm
  subst hfi
  constructor
  · intro funcs fd hfuncs hfd
    cases hf0 : fi0.functions with
    | none => simp [mergeFileInfo, hf0] at hfuncs
    | some fs0 =>
      have hfuncs' : funcs = fs0.map
          (fun p => (p.1, mergeFunc (buildCalledByGraph files) p.1 p.2)) := by
        simpa [mergeFileInfo, hf0] using hfuncs.symm
      subst hfuncs'
      rcases List.mem_map.mp hfd with ⟨⟨fn0, fd0⟩, hmemf, heqf⟩
      have hfn : fn0 = c := by simpa using congrArg Prod.fst heqf
      have hfd0 : fd = mergeFunc (buildCalledByGraph files) fn0 fd0 := by
        simpa using (congrArg Prod.snd heqf).symm
      subst hfd0
      subst hfn
      exact symCalledBy_mergeFunc _ _ fd0 b hg
  · intro cls cn cd ms md hcls hcd hms hmd
    cases hc0 : fi0.classes with
    | none => simp [mergeFileInfo, hc0] at hcls
    | some cs0 =>
      have hcls' : cls = cs0.map
          (fun p => (p.1, mergeClassVal (buildCalledByGraph files) p.1 p.2)) := by
        simpa [mergeFileInfo, hc0] using hcls.symm
      subst hcls'
      rcases List.mem_map.mp hcd with ⟨⟨cn0, cv0⟩, hmemc, heqc⟩
      have hcn : cn0 = cn := by simpa using congrArg Prod.fst heqc
      subst hcn
      have hcv : ClassVal.dict cd = mergeClassVal (buildCalledByGraph files) cn0 cv0 := by
        simpa using (congrArg Prod.snd heqc).symm
      cases cv0 with
      | str s => simp [mergeClassVal] at hcv
      | dict cd0 =>
        have hcd0 : cd = { cd0 with
            methods := cd0.methods.map (fun ms => ms.map
              (fun p => (p.1, mergeMethod (buildCalledByGraph files) cn0 p.1 p.2))) } := by
          simpa [mergeClassVal] using hcv
        subst hcd0
        cases hm0 : cd0.methods with
        | none => simp [hm0] at hms
        | some ms0 =>
          have hms' : ms = ms0.map
              (fun p => (p.1, mergeMethod (buildCalledByGraph files) cn0 p.1 p.2)) := by
            simpa [hm0] using hms.symm
          subst hms'
          rcases List.mem_map.mp hmd with ⟨⟨mn0, md0⟩, hmemm, heqm⟩
          have hmn : mn0 = c := by simpa using congrArg Prod.fst heqm
          have hmd0 : md = mergeMethod (buildCalledByGraph files) cn0 mn0 md0 := by
            simpa using (congrArg Prod.snd heqm).symm
          subst hmd0
          subst hmn
          exact symCalledBy_mergeMethod _ cn0 _ md0 b hg

/-- Witness for C3: in `c3Files`, `f` calls `gg`, and after the build the
record of `gg` carries `f` in its `called_by`. -/
theorem call_graph_symmetry_witness : "f" ∈ symCalledBy c3Merged := by
  have h := call_graph_symmetry c3Files "f" "gg"
    ⟨"a.py",
     { language := "python", parsed := true,
       functions := some
         [("f", .dict { signature := some "def f():", calls := some ["gg"] }),
          ("gg", .str "def gg():")] },
     by decide,
     Or.inl ⟨[("f", .dict { signature := some "def f():", calls := some ["gg"] }),
              ("gg", .str "def gg():")],
             { signature := some "def f():", calls := some ["gg"] }, ["gg"],
             rfl, by decide, rfl, by decide⟩⟩
    "a.py"
    { language := "python", parsed := true,
      functions := some
        [("f", .dict { signature := some "def f():", calls := some ["gg"] }),
         ("gg", c3Merged)] }
    (by decide)
  exact h.1 _ c3Merged rfl (by decide)

/-- Counterexample for C4: `c4Files` holds one never-called bare-string
function record, and after the call-graph build the output still contains a
bare-string symbol record, so not every symbol record is in structured form. -/
theorem call_graph_structured_counterexample :
    allSymbolsStructured (build_call_graph c4Files) = false := by decide


/-- A dict lookup hit is a member of the association list. -/
theorem dictGet_mem {α : Type} (g : List (String × α)) (k : String) (v : α)
    (h : dictGet g k = some v) : (k, v) ∈ g := by
  induction g with
  | nil => simp [dictGet] at h
  | cons p rest ih =>
    obtain ⟨k', v'⟩ := p
    by_cases hk : k' = k
    · subst hk
      have hv : v' = v := by simpa [dictGet] using h
      subst hv
      exact List.mem_cons_self _ _
    · simp only [dictGet, if_neg hk] at h
      exact List.mem_cons_of_mem _ (ih h)

/-- `addEdge` keeps every value list of the reverse index non-empty. -/
theorem graphNE_addEdge (g : Graph) (key n : String)
    (h : ∀ p ∈ g, p.2 ≠ ([] : List String)) :
    ∀ p ∈ addEdge g key n, p.2 ≠ ([] : List String) := by
  induction g with
  | nil =>
    intro p hp
    simp only [addEdge, List.mem_singleton] at hp
    subst hp
    simp
  | cons q rest ih =>
    obtain ⟨k', v⟩ := q
    intro p hp
    by_cases hk : k' = key
    · subst hk
      simp only [addEdge, if_pos rfl] at hp
      rcases List.mem_cons.mp hp with h1 | h1
      · subst h1; simp
      · exact h p (List.mem_cons_of_mem _ h1)
    · simp only [addEdge, if_neg hk] at hp
      rcases List.mem_cons.mp hp with h1 | h1
      · subst h1
        exact h (k', v) (List.mem_cons_self _ _)
      · exact ih (fun q hq => h q (List.mem_cons_of_mem _ hq)) p h1

/-- Every value list of the reverse index built by pass 1 is non-empty (an
entry is only ever created with one caller and only ever appended to). -/
theorem buildGraph_nonnil (files : Files) :
    ∀ p ∈ buildCalledByGraph files, p.2 ≠ ([] : List String) := by
  refine foldl_pres _ (fun (g : Graph) => ∀ p ∈ g, p.2 ≠ ([] : List String)) ?_ files [] ?_
  · intro g a hg
    exact collectFile_pres _ (fun g k n h => graphNE_addEdge g k n h) g a.2 hg
  · intro p hp
    cases hp

/-- A function whose name is keyed in the reverse index comes out of pass 2
as a structured dict with a `called_by` key. -/
theorem mergeFunc_structured (g : Graph) (fn : String) (fd : SymRec)
    (hsome : (dictGet g fn).isSome = true) :
    ∃ d cb, mergeFunc g fn fd = SymRec.dict d ∧ d.called_by = some cb := by
  obtain ⟨l, hl⟩ := Option.isSome_iff_exists.mp hsome
  cases fd with
  | str s =>
    exact ⟨{ signature := some s, called_by := some l }, l, by simp [mergeFunc, hl], rfl⟩
  | dict d =>
    exact ⟨{ d with called_by := some l }, l, by simp [mergeFunc, hl], rfl⟩

/-- A method whose bare or qualified name is keyed in the reverse index comes
out of pass 2 as a structured dict with a `called_by` key. -/
theorem mergeMethod_structured (g : Graph) (cname mname : String) (md : SymRec)
    (hne : ∀ p ∈ g, p.2 ≠ ([] : List String))
    (hsome : ((dictGet g mname).isSome || (dictGet g (cname ++ "." ++ mname)).isSome) = true) :
    ∃ d cb, mergeMethod g cname mname md = SymRec.dict d ∧ d.called_by = some cb := by
  have hor : (dictGet g mname).isSome = true ∨
      (dictGet g (cname ++ "." ++ mname)).isSome = true := by
    simpa using hsome
  have hcne : (((dictGet g mname).getD []) ++
      ((dictGet g (cname ++ "." ++ mname)).getD [])).isEmpty = false := by
    rcases hor with h1 | h1
    · obtain ⟨l, hl⟩ := Option.isSome_iff_exists.mp h1
      have hlne := hne _ (dictGet_mem g mname l hl)
      cases l with
      | nil => exact absurd rfl hlne
      | cons x xs =>
        have hx : x ∈ (dictGet g mname).getD [] := by simp [hl]
        exact isEmpty_false_of_mem (List.mem_append_left _ hx)
    · obtain ⟨l, hl⟩ := Option.isSome_iff_exists.mp h1
      have hlne := hne _ (dictGet_mem g (cname ++ "." ++ mname) l hl)
      cases l with
      | nil => exact absurd rfl hlne
      | cons x xs =>
        have hx : x ∈ (dictGet g (cname ++ "." ++ mname)).getD [] := by simp [hl]
        exact isEmpty_false_of_mem (List.mem_append_right _ hx)
  cases md with
  | str s =>
    refine ⟨{ signature := some s,
              called_by := some ((((dictGet g mname).getD []) ++
                ((dictGet g (cname ++ "." ++ mname)).getD [])).dedup) },
            (((dictGet g mname).getD []) ++
              ((dictGet g (cname ++ "." ++ mname)).getD [])).dedup, ?_, rfl⟩
    simp [mergeMethod, hsome, hcne]
  | dict d =>
    refine ⟨{ d with
              called_by := some ((((dictGet g mname).getD []) ++
                ((dictGet g (cname ++ "." ++ mname)).getD [])).dedup) },
            (((dictGet g mname).getD []) ++
              ((dictGet g (cname ++ "." ++ mname)).getD [])).dedup, ?_, rfl⟩
    simp [mergeMethod, hsome, hcne]

/-- Claim C4 (amended): after the Call Graph Builder runs, every symbol
record whose name has an entry in the reverse call index (for methods, under
the bare or the qualified name) is a structured dict carrying a `called_by`
key; records with no incoming edge keep their original shape, so a
never-called bare signature string stays a bare string. -/
theorem call_graph_merge_promotion (files : Files) (fp' : String) (fi' : FileInfo)
    (hout : (fp', fi') ∈ build_call_graph files) :
    (∀ funcs fn fd, fi'.functions = some funcs → (fn, fd) ∈ funcs →
      (dictGet (buildCalledByGraph files) fn).isSome = true →
      ∃ d cb, fd = SymRec.dict d ∧ d.called_by = some cb) ∧
    (∀ cls cn cd ms mn md, fi'.classes = some cls → (cn, ClassVal.dict cd) ∈ cls →
      cd.methods = some ms → (mn, md) ∈ ms →
      ((dictGet (buildCalledByGraph files) mn).isSome ||
       (dictGet (buildCalledByGraph files) (cn ++ "." ++ mn)).isSome) = true →
      ∃ d cb, md = SymRec.dict d ∧ d.called_by = some cb) := by
  unfold build_call_graph at hout
  rcases List.mem_map.mp hout with ⟨⟨fp0, fi0⟩, hmem0, heq⟩
  have hfi : fi' = mergeFileInfo (buildCalledByGraph files) fi0 := by
    have := congrArg Prod.snd heq
    simpa using this.symm
  subst hfi
  constructor
  · intro funcs fn fd hfuncs hfd hsome
    cases hf0 : fi0.functions with
    | none => simp [mergeFileInfo, hf0] at hfuncs
    | some fs0 =>
      have hfuncs' : funcs = fs0.map
          (fun p => (p.1, mergeFunc (buildCalledByGraph files) p.1 p.2)) := by
        simpa [mergeFileInfo, hf0] using hfuncs.symm
      subst hfuncs'
      rcases List.mem_map.mp hfd with ⟨⟨fn0, fd0⟩, hmemf, heqf⟩
      have hfn : fn0 = fn := by simpa using congrArg Prod.fst heqf
      have hfd0 : fd = mergeFunc (buildCalledByGraph files) fn0 fd0 := by
        simpa using (congrArg Prod.snd heqf).symm
      subst hfd0
      subst hfn
      exact mergeFunc_structured _ _ fd0 hsome
  · intro cls cn cd ms mn md hcls hcd hms hmd hsome
    cases hc0 : fi0.classes with
    | none => simp [mergeFileInfo, hc0] at hcls
    | some cs0 =>
      have hcls' : cls = cs0.map
          (fun p => (p.1, mergeClassVal (buildCalledByGraph files) p.1 p.2)) := by
        simpa [mergeFileInfo, hc0] using hcls.symm
      subst hcls'
      rcases List.mem_map.mp hcd with ⟨⟨cn0, cv0⟩, hmemc, heqc⟩
      have hcn : cn0 = cn := by simpa using congrArg Prod.fst heqc
      subst hcn
      have hcv : ClassVal.dict cd = mergeClassVal (buildCalledByGraph files) cn0 cv0 := by
        simpa using (congrArg Prod.snd heqc).symm
      cases cv0 with
      | str s => simp [mergeClassVal] at hcv
      | dict cd0 =>
        have hcd0 : cd = { cd0 with
            methods := cd0.methods.map (fun ms => ms.map
              (fun p => (p.1, mergeMethod (buildCalledByGraph files) cn0 p.1 p.2))) } := by
          simpa [mergeClassVal] using hcv
        subst hcd0
        cases hm0 : cd0.methods with
        | none => simp [hm0] at hms
        | some ms0 =>
          have hms' : ms = ms0.map
              (fun p => (p.1, mergeMethod (buildCalledByGraph files) cn0 p.1 p.2)) := by
            simpa [hm0] using hms.symm
          subst hms'
          rcases List.mem_map.mp hmd with ⟨⟨mn0, md0⟩, hmemm, heqm⟩
          have hmn : mn0 = mn := by simpa using congrArg Prod.fst heqm
          have hmd0 : md = mergeMethod (buildCalledByGraph files) cn0 mn0 md0 := by
            simpa using (congrArg Prod.snd heqm).symm
          subst hmd0
          subst hmn
          exact mergeMethod_structured _ cn0 _ md0 (buildGraph_nonnil files) hsome

/-- Witness for the amended C4: in `c4wFiles`, the bare-string method `mm` is
called by `caller`, and after the build its record is a structured dict with
a `called_by` key. -/
theorem call_graph_merge_promotion_witness :
    ∃ d cb, c4wMM = SymRec.dict d ∧ d.called_by = some cb := by
  have h := call_graph_merge_promotion c4wFiles "m.py" c4wOut (by decide)
  exact h.2 [("K", .dict c4wCD)] "K" c4wCD [("mm", c4wMM)] "mm" c4wMM
    rfl (by decide) rfl (by decide) (by decide)

/-- The letter `a` is not escaped by the JSON string escaper. -/
theorem escChar_a : escChar 'a' = ['a'] := by decide

/-- Escaping a run of `a`s is the identity. -/
theorem escapeChars_replicate_a (n : Nat) :
    escapeChars (List.replicate n 'a') = List.replicate n 'a' := by
  induction n with
  | zero => rfl
  | succ m ih =>
    simp [List.replicate_succ, escapeChars, escChar_a, ih]

/-- A member of a joined list is no longer than the join. -/
theorem joinSep_len_ge (sep : List Char) (xs : List (List Char)) (x : List Char)
    (h : x ∈ xs) : x.length ≤ (joinSep sep xs).length := by
  induction xs with
  | nil => cases h
  | cons y ys ih =>
    rcases List.mem_cons.mp h with h1 | h1
    · subst h1
      cases ys with
      | nil => simp [joinSep]
      | cons z zs =>
        simp only [joinSep, List.length_append]
        omega
    · cases ys with
      | nil => cases h1
      | cons z zs =>
        have h2 := ih h1
        simp only [joinSep, List.length_append]
        omega

/-- A field value of a rendered JSON object is no longer than the rendered
object. -/
theorem dumpObj_len_ge (lvl : Nat) (fields : List (List Char × List Char))
    (k v : List Char) (h : (k, v) ∈ fields) :
    v.length ≤ (dumpObj lvl fields).length := by
  cases fields with
  | nil => cases h
  | cons f fs =>
    have hmem : (nlIndent (lvl + 1) ++ k ++ [':', ' '] ++ v) ∈
        ((f :: fs).map (fun q => nlIndent (lvl + 1) ++ q.1 ++ [':', ' '] ++ q.2)) :=
      List.mem_map_of_mem _ h
    have h1 := joinSep_len_ge [','] _ _ hmem
    simp only [List.length_append] at h1
    simp only [dumpObj, List.length_cons, List.length_append]
    omega

/-- Length of a rendered JSON string literal. -/
theorem dumpStr_len (s : String) :
    (dumpStr s).length = (escapeChars s.data).length + 2 := by
  simp only [dumpStr, List.length_cons, List.length_append, List.length_nil]

/-- The serialized purpose string of the size-governor witness is 1100002
characters long. -/
theorem c2_purpose_len : (dumpStr c2big).length = 1100002 := by
  have h1 : escapeChars c2big.data = List.replicate 1100000 'a' :=
    escapeChars_replicate_a 1100000
  rw [dumpStr_len, h1, List.length_replicate]

/-- The rendered record of `big.py` is longer than its purpose string. -/
theorem c2_fileinfo_len : 1100002 ≤ (dumpFileInfo 2 c2fi).length := by
  have hfl : fileInfoFields 2 c2fi =
      [(dumpStr "language", dumpStr "python"),
       (dumpStr "parsed", dumpBool true),
       (dumpStr "purpose", dumpStr c2big),
       (dumpStr "functions", dumpObj 3 [(dumpStr "f", dumpSymRec 4 (SymRec.str "def f():"))])] := rfl
  have hmem : (dumpStr "purpose", dumpStr c2big) ∈ fileInfoFields 2 c2fi := by
    rw [hfl]
    exact List.mem_cons_of_mem _ (List.mem_cons_of_mem _ (List.mem_cons_self _ _))
  have h := dumpObj_len_ge 2 (fileInfoFields 2 c2fi) (dumpStr "purpose") (dumpStr c2big) hmem
  rw [c2_purpose_len] at h
  exact h

/-- The size-governor witness serializes to more than the 1 MiB budget. -/
theorem c2_over_budget : MAX_INDEX_SIZE < jsonLen c2Index := by
  have hmem1 : (dumpStr "big.py", dumpFileInfo 2 c2fi) ∈
      (c2Index.files.map (fun p => (dumpStr p.1, dumpFileInfo 2 p.2))) := by
    exact List.mem_cons_self _ _
  have h1 := dumpObj_len_ge 1 _ _ _ hmem1
  have hmem2 : (dumpStr "files",
      dumpObj 1 (c2Index.files.map (fun p => (dumpStr p.1, dumpFileInfo 2 p.2)))) ∈
      indexFields c2Index := by
    unfold indexFields
    exact List.mem_cons_of_mem _ (List.mem_cons_of_mem _ (List.mem_cons_of_mem _
      (List.mem_cons_of_mem _ (List.mem_cons_of_mem _ (List.mem_cons_of_mem _
        (List.mem_cons_self _ _))))))
  have h2 := dumpObj_len_ge 0 (indexFields c2Index) _ _ hmem2
  have h3 := c2_fileinfo_len
  have hj : jsonLen c2Index = (dumpObj 0 (indexFields c2Index)).length := rfl
  show 1024 * 1024 < jsonLen c2Index
  omega

/-- When every remaining file record is parsed, the compression scan falls
through without deleting anything. -/
theorem removeFirstUnparsed_none (files : Files)
    (h : ∀ p ∈ files, p.2.parsed = true) : removeFirstUnparsed files = none := by
  induction files with
  | nil => rfl
  | cons p rest ih =>
    obtain ⟨q, fi⟩ := p
    have hp : fi.parsed = true := h (q, fi) (List.mem_cons_self _ _)
    simp only [removeFirstUnparsed]
    rw [if_neg (by simp [hp]), ih (fun r hr => h r (List.mem_cons_of_mem _ hr))]
    rfl

/-- An over-budget index whose non-empty file mapping is entirely parsed is a
fixed point of the loop body while the guard stays true: no amount of fuel
makes the `while` loop of `compress_index_if_needed` terminate on it. -/
theorem compressLoop_none (idx : Index) (hgt : MAX_INDEX_SIZE < jsonLen idx)
    (hne : idx.files ≠ []) (hall : ∀ p ∈ idx.files, p.2.parsed = true) :
    ∀ fuel, compressLoop fuel idx = none := by
  intro fuel
  induction fuel with
  | zero => rfl
  | succ n ih =>
    unfold compressLoop
    rw [if_pos ⟨hgt, hne⟩, removeFirstUnparsed_none idx.files hall]
    exact ih

/-- Claim C2: on a snapshot whose serialized size exceeds the 1 MiB budget
with every remaining (and at least one) file record fully parsed, the claim
says the size governor terminates and returns the oversized snapshot as-is;
the code instead loops forever - its `while` re-tests an unchanged condition
after a scan that deletes nothing - so no fuel bound makes
`compress_index_if_needed` finish on the concrete witness `c2Index`. -/
theorem size_governor_nontermination :
    MAX_INDEX_SIZE < jsonLen c2Index ∧
    c2Index.files ≠ [] ∧
    (∀ p ∈ c2Index.files, p.2.parsed = true) ∧
    ∀ fuel : Nat, compress_index_if_needed fuel c2Index = none := by
  have hgt := c2_over_budget
  have hne : c2Index.files ≠ [] := List.cons_ne_nil _ _
  have hall : ∀ p ∈ c2Index.files, p.2.parsed = true := by
    intro p hp
    have hp' : p = ("big.py", c2fi) := List.mem_singleton.mp hp
    subst hp'
    rfl
  refine ⟨hgt, hne, hall, ?_⟩
  intro fuel
  unfold compress_index_if_needed
  rw [if_neg (not_le.mpr hgt)]
  have htree : ¬ (100 < c2Index.tree.length) := by decide
  rw [if_neg htree]
  exact compressLoop_none c2Index hgt hne hall fuel

/-- A set-once Boolean flag is a disjunction. -/
theorem ite_true_bool (p : Prop) [Decidable p] (b : Bool) :
    (if p then true else b) = (decide p || b) := by
  by_cases h : p <;> simp [h]

/-- A guarded set-once Boolean flag is a conjunction disjunct. -/
theorem ite_ite_true_bool (p q : Prop) [Decidable p] [Decidable q] (b : Bool) :
    (if p then (if q then true else b) else b) = (decide (p ∧ q) || b) := by
  by_cases hp : p <;> by_cases hq : q <;> simp [hp, hq]

/-- Claim C5: given a readable prior snapshot, `analyze_changes` flags
significance exactly when one of the four spec conditions holds (absolute
file-count delta above 10, directory delta above 5, more than 5 removed
files, or a parse-ratio shift of more than 20 percentage points, the ratios
being defined); in particular a pair differing by exactly 11 files is
significant and one differing by exactly 10 files is not. -/
theorem significance_thresholds :
    (∀ old new : Index,
      (analyze_changes (.readable old) new).1 = spec_significant old new) ∧
    (analyze_changes (.readable c5old) c5new11).1 = true ∧
    (analyze_changes (.readable c5old) c5new10).1 = false := by
  refine ⟨?_, ?_, ?_⟩
  · intro old new
    simp only [analyze_changes, spec_significant]
    rw [ite_ite_true_bool, ite_true_bool, ite_true_bool, ite_true_bool]
    simp [Bool.or_assoc, Bool.or_comm, Bool.or_left_comm, Bool.and_assoc, Function.comp_def]
  · norm_num [analyze_changes, get_file_level_changes, c5old, c5new11]
  · norm_num [analyze_changes, get_file_level_changes, c5old, c5new10]

/-- Counterexample for C6: on an unreadable prior snapshot the analyzer does
not return the no-prior result with a different note - its file-changes
record stays the initial empty dict instead of listing every new file as
added. -/
theorem change_analyzer_unreadable_counterexample :
    (analyze_changes (.unreadable "Expecting value") c6new).2.file_changes = FCVal.empty ∧
    (analyze_changes .noPrior c6new).2.file_changes =
      FCVal.fc { files_added := ["x.py"], files_removed := [], files_modified := [] } ∧
    (analyze_changes (.unreadable "Expecting value") c6new).2.file_changes ≠
      (analyze_changes .noPrior c6new).2.file_changes := by
  refine ⟨rfl, rfl, by decide⟩

/-- Claim C6 (amended): when the prior snapshot file exists but cannot be
read or decoded, the change analysis returns significance false with a
distinct note recording the failure, but leaves old-stats, new-stats and the
file-changes record at their initial empty values - it does not compute the
all-current-files-added record of the no-prior case. -/
theorem change_analyzer_unreadable_amended (new : Index) (emsg : String) :
    analyze_changes (.unreadable emsg) new =
      (false,
       { old_stats := none, new_stats := none, file_changes := .empty,
         significance_level := "auto_approved",
         notes := "Could not read previous index: " ++ emsg }) := rfl

/-- Counterexample for C7: with `a/b.py` importing `./c` and `a/c.py`
present, the recorded dependency list is `["a/c.py"]` - the matched path
keeps its extension, so `a/c` itself is not in the list. -/
theorem dependency_extension_counterexample :
    build_dependency_graph c7Files = [("a/b.py", ["a/c.py"])] ∧
    "a/c" ∉ ["a/c.py"] := by
  exact ⟨by decide, by decide⟩

/-- When the probed path with the first extension `.py` is a known file, the
extension probe returns it. -/
theorem firstExtMatch_py (files : Files) (resolved : String)
    (h : filesHasKey files (resolved ++ ".py") = true) :
    firstExtMatch files resolved = some (resolved ++ ".py") := by
  unfold firstExtMatch
  have hfind : List.find? (fun ext => filesHasKey files (resolved ++ ext))
      ([".py", ".js", ".ts", ".jsx", ".tsx", ""] : List String) = some ".py" :=
    List.find?_cons_of_pos _ h
  rw [hfind]

/-- A relative import that the extension probe resolves contributes its
match to the file's dependency list. -/
theorem depsForFile_mem (files : Files) (fp : String) (imps : List String)
    (imp dep : String) (himp : imp ∈ imps) (hrel : strStarts "." imp = true)
    (hmatch : firstExtMatch files (resolveRelativeImport (pathParent fp) imp) = some dep) :
    dep ∈ depsForFile files fp imps := by
  unfold depsForFile
  refine foldl_intro _ (fun (deps : List String) => dep ∈ deps) imp ?_ ?_ imps [] himp
  · intro b a hb
    by_cases ha : strStarts "." a = true
    · cases hm : firstExtMatch files (resolveRelativeImport (pathParent fp) a) with
      | none => simpa [ha, hm] using hb
      | some d =>
        simp only [ha, if_true, hm]
        exact List.mem_append_left _ hb
    · simp only [ha, Bool.false_eq_true, if_false]
      exact List.mem_append_left _ hb
  · intro b
    simp only [hrel, if_true, hmatch]
    exact List.mem_append_right _ (List.mem_singleton_self _)

/-- A file whose truthy import list resolves to a non-empty dependency list
gets an entry in the dependency graph. -/
theorem build_dependency_graph_mem (files : Files) (fp : String) (fi : FileInfo)
    (imps : List String) (hmem : (fp, fi) ∈ files) (himps : fi.imports = some imps)
    (hne : imps.isEmpty = false)
    (hdne : (depsForFile files fp imps).isEmpty = false) :
    (fp, depsForFile files fp imps) ∈ build_dependency_graph files := by
  unfold build_dependency_graph
  refine foldl_intro _
    (fun (g : List (String × List String)) => (fp, depsForFile files fp imps) ∈ g)
    (fp, fi) ?_ ?_ files [] hmem
  · intro b a hb
    cases him : a.2.imports with
    | none => simpa [him] using hb
    | some imps' =>
      by_cases he : imps'.isEmpty
      · simpa [him, he] using hb
      · by_cases hd : (depsForFile files a.1 imps').isEmpty
        · simpa [him, he, hd] using hb
        · simp only [him, he, hd, Bool.false_eq_true, if_false]
          exact List.mem_append_left _ hb
  · intro b
    simp only [himps, hne, hdne, Bool.false_eq_true, if_false]
    exact List.mem_append_right _ (List.mem_singleton_self _)

/-- Claim C7 (amended): for every file mapping containing `a/b.py` whose
imports include `./c` together with a file `a/c.py`, the recorded dependency
list of `a/b.py` includes `a/c.py`; and for every mapping containing
`a/b/x.py` whose imports include `../y` together with `a/y.py`, the recorded
list of `a/b/x.py` includes `a/y.py` - the resolved base is matched against
each known source extension and the empty extension in turn, the first match
(kept with its extension) winning. -/
theorem dependency_resolution_amended (files : Files) :
    (∀ fi imps, ("a/b.py", fi) ∈ files → fi.imports = some imps → "./c" ∈ imps →
      filesHasKey files "a/c.py" = true →
      ∃ deps, ("a/b.py", deps) ∈ build_dependency_graph files ∧ "a/c.py" ∈ deps) ∧
    (∀ fi imps, ("a/b/x.py", fi) ∈ files → fi.imports = some imps → "../y" ∈ imps →
      filesHasKey files "a/y.py" = true →
      ∃ deps, ("a/b/x.py", deps) ∈ build_dependency_graph files ∧ "a/y.py" ∈ deps) := by
  constructor
  · intro fi imps hmem himps himp hkey
    have hres : resolveRelativeImport (pathParent "a/b.py") "./c" = "a/c" := by decide
    have hmatch : firstExtMatch files (resolveRelativeImport (pathParent "a/b.py") "./c") =
        some "a/c.py" := by
      rw [hres]
      exact firstExtMatch_py files "a/c" hkey
    have hdep := depsForFile_mem files "a/b.py" imps "./c" "a/c.py" himp (by decide) hmatch
    exact ⟨_, build_dependency_graph_mem files "a/b.py" fi imps hmem himps
      (isEmpty_false_of_mem himp) (isEmpty_false_of_mem hdep), hdep⟩
  · intro fi imps hmem himps himp hkey
    have hres : resolveRelativeImport (pathParent "a/b/x.py") "../y" = "a/y" := by decide
    have hmatch : firstExtMatch files (resolveRelativeImport (pathParent "a/b/x.py") "../y") =
        some "a/y.py" := by
      rw [hres]
      exact firstExtMatch_py files "a/y" hkey
    have hdep := depsForFile_mem files "a/b/x.py" imps "../y" "a/y.py" himp (by decide) hmatch
    exact ⟨_, build_dependency_graph_mem files "a/b/x.py" fi imps hmem himps
      (isEmpty_false_of_mem himp) (isEmpty_false_of_mem hdep), hdep⟩

/-- Witness for the amended C7: both spec scenarios realized in `c7wFiles`. -/
theorem dependency_resolution_amended_witness :
    (∃ deps, ("a/b.py", deps) ∈ build_dependency_graph c7wFiles ∧ "a/c.py" ∈ deps) ∧
    (∃ deps, ("a/b/x.py", deps) ∈ build_dependency_graph c7wFiles ∧ "a/y.py" ∈ deps) :=
  ⟨(dependency_resolution_amended c7wFiles).1
      { language := "python", imports := some ["./c"] } ["./c"]
      (by decide) rfl (by decide) (by decide),
   (dependency_resolution_amended c7wFiles).2
      { language := "python", imports := some ["../y"] } ["../y"]
      (by decide) rfl (by decide) (by decide)⟩

/-- An entry completing a pending backup record is exactly one log entry. -/
theorem complete_backup_log_info_len (p : String) (cd : Option ChangeData) (b : Bool) :
    (complete_backup_log (.info p) cd b).length = 1 := rfl

/-- Counterexample for C8: a fully successful first run (no prior snapshot
existed to back up) appends no entry at all to the backup log -
`complete_backup_log` returns early on the `None` backup holder. -/
theorem backup_log_first_run_counterexample : mainDefault firstRunEnv = [] := rfl

/-- Claim C8 (amended): a default build-and-update run appends exactly one
backup-log entry precisely when a prior snapshot existed and its backup copy
succeeded (whatever else happens, including build failure, declined
confirmation and save failure); first runs and runs whose backup creation
failed append none. A build-failure run with a backup appends one failure
entry. -/
theorem backup_log_append_amended :
    (∀ env : RunEnv, (mainDefault env).length =
      if env.priorFile.isSome && env.backupCopyOk then 1 else 0) ∧
    mainDefault buildFailEnv =
      [{ significance_level := "unknown", operation_success := false,
         notes := " | Success: False" }] := by
  refine ⟨?_, rfl⟩
  intro env
  rcases env with ⟨pf, cok, br, oy, ⟨tw, rep, rc⟩⟩
  cases pf with
  | none =>
    cases br with
    | none => rfl
    | some idx => cases oy <;> cases tw <;> cases rep <;> rfl
  | some jf =>
    cases cok with
    | false =>
      cases br with
      | none => rfl
      | some idx => cases oy <;> cases tw <;> cases rep <;> rfl
    | true =>
      cases br with
      | none => rfl
      | some idx =>
        cases jf with
        | corrupt e => cases oy <;> cases tw <;> cases rep <;> rfl
        | valid old =>
          rcases h : analyze_changes (Prior.readable old) idx with ⟨sig, cd⟩
          simp only [mainDefault, create_backup, priorOf, h]
          cases hc : confirm_update sig oy <;> cases tw <;> cases rep <;>
            simp [complete_backup_log, safe_save_index, save_failure_handler] <;>
            (try (split <;> rfl))

/-- Membership through descending insertion. -/
theorem mem_insertMtimeDesc (e x : DirEntry) (l : List DirEntry) :
    x ∈ insertMtimeDesc e l ↔ x = e ∨ x ∈ l := by
  induction l with
  | nil => simp [insertMtimeDesc]
  | cons y ys ih =>
    by_cases h : y.mtime ≤ e.mtime
    · simp [insertMtimeDesc, h, List.mem_cons]
    · simp only [insertMtimeDesc, h, if_false, List.mem_cons, ih]
      tauto

/-- Sorting by modification time permutes membership. -/
theorem mem_sortMtimeDesc (x : DirEntry) (l : List DirEntry) :
    x ∈ sortMtimeDesc l ↔ x ∈ l := by
  induction l with
  | nil => simp [sortMtimeDesc]
  | cons y ys ih =>
    simp [sortMtimeDesc, mem_insertMtimeDesc, ih, List.mem_cons]

/-- Claim C9: the rotation's deletion candidates are exactly the directory
files matching `PROJECT_INDEX_*.json` ranked by modification time; the log
file name `PROJECT_INDEX_backups_log.json` matches that glob, so when the
matches exceed the cap the log competes for retention - concretely, with ten
newer snapshot backups and the log as oldest file, rotation at cap 10
deletes exactly the log file. -/
theorem rotation_log_competition :
    matchesBackupGlob "PROJECT_INDEX_backups_log.json" = true ∧
    (∀ (dir : List DirEntry) (cap : Nat),
      ((manage_backup_rotation dir cap).2).all matchesBackupGlob = true) ∧
    (manage_backup_rotation c9Dir 10).2 = ["PROJECT_INDEX_backups_log.json"] ∧
    (manage_backup_rotation c9Dir 10).1 = c9Dir.drop 1 := by
  refine ⟨by decide, ?_, by decide, by decide⟩
  intro dir cap
  unfold manage_backup_rotation
  by_cases h : cap < (dir.filter (fun f => matchesBackupGlob f.name)).length
  · simp only [h, if_true]
    rw [List.all_eq_true]
    intro n hn
    rcases List.mem_map.mp hn with ⟨f, hf, rfl⟩
    have hf2 : f ∈ sortMtimeDesc (dir.filter (fun f => matchesBackupGlob f.name)) :=
      List.mem_of_mem_drop hf
    have hf3 := (mem_sortMtimeDesc _ _).mp hf2
    exact (List.mem_filter.mp hf3).2
  · simp [h]

/-- Incrementing a counter-dict key makes its looked-up value one more than
its previous value (zero when absent). -/
theorem dictGet_statInc (m : List (String × Nat)) (k : String) :
    dictGet (statInc m k) k = some ((dictGet m k).getD 0 + 1) := by
  induction m with
  | nil => simp [statInc, dictGet]
  | cons p rest ih =>
    obtain ⟨k', v⟩ := p
    by_cases h : k' = k
    · subst h
      simp [statInc, dictGet]
    · simp [statInc, dictGet, h, ih]

/-- Claim C10: a parseable-language file whose extraction succeeds with no
functions and no classes keeps `parsed = false`, yet the per-language
`stats.fully_parsed` counter is still incremented and `stats.listed_only` is
untouched; such a record is removable by the size governor's scan, and on a
concrete one-file walk the fully-parsed total (1) exceeds the number of
records actually marked parsed (0). -/
theorem empty_extraction_stats (suffix langKey : String) (purpose : Option String)
    (imps : Option (List String)) (stats : Stats) (p : String) (rest : Files)
    (hk : dictGet PARSEABLE_LANGUAGES suffix = some langKey) :
    (processCodeFile suffix purpose (.ok [] [] imps) stats).1.parsed = false ∧
    dictGet (processCodeFile suffix purpose (.ok [] [] imps) stats).2.fully_parsed langKey =
      some ((dictGet stats.fully_parsed langKey).getD 0 + 1) ∧
    (processCodeFile suffix purpose (.ok [] [] imps) stats).2.listed_only =
      stats.listed_only ∧
    removeFirstUnparsed
        ((p, (processCodeFile suffix purpose (.ok [] [] imps) stats).1) :: rest) =
      some rest ∧
    ((buildFilesStats c10Items).2.fully_parsed.map (fun q => q.2)).sum = 1 ∧
    ((buildFilesStats c10Items).1.filter (fun q => q.2.parsed)).length = 0 := by
  have hfi : (processCodeFile suffix purpose (.ok [] [] imps) stats).1 =
      { language := get_language_name suffix, parsed := false, purpose := purpose } := by
    simp [processCodeFile, hk]
  have hst : (processCodeFile suffix purpose (.ok [] [] imps) stats).2 =
      { stats with fully_parsed := statInc stats.fully_parsed langKey } := by
    simp [processCodeFile, hk]
  refine ⟨by simp [hfi], ?_, by simp [hst], ?_, by decide, by decide⟩
  · rw [hst]
    exact dictGet_statInc _ _
  · rw [hfi]
    simp [removeFirstUnparsed]

/-- Witness for C10: the `.py` file with an empty extraction result. -/
theorem empty_extraction_stats_witness :
    (processCodeFile ".py" none (.ok [] [] none) {}).1.parsed = false ∧
    dictGet (processCodeFile ".py" none (.ok [] [] none) {}).2.fully_parsed "python" =
      some ((dictGet ({} : Stats).fully_parsed "python").getD 0 + 1) ∧
    (processCodeFile ".py" none (.ok [] [] none) {}).2.listed_only =
      ({} : Stats).listed_only ∧
    removeFirstUnparsed
        (("empty.py", (processCodeFile ".py" none (.ok [] [] none) {}).1) :: []) =
      some [] ∧
    ((buildFilesStats c10Items).2.fully_parsed.map (fun q => q.2)).sum = 1 ∧
    ((buildFilesStats c10Items).1.filter (fun q => q.2.parsed)).length = 0 :=
  empty_extraction_stats ".py" "python" none none {} "empty.py" [] (by decide)

/-- Claim C1 (code bug): with a prior snapshot backed up and the atomic
replace failing, `main` passes the `BackupInfo` holder returned by
`create_backup` - not a `Path` - into `safe_save_index`, whose rollback
block evaluates `backup_path.exists()`: on that object this raises
`AttributeError` before any copy is attempted, and the exception escapes
`safe_save_index` (only `main`'s generic handler catches it), so the
promised rollback copy never runs; the pre-existing output file survives
only because the failed replace did not touch it. The third and fourth
conjuncts show the intended behavior the claim describes - restore and
contained rollback failure - does occur when a `Path` is passed instead. -/
theorem rollback_attributeerror_bug :
    (create_backup { output := some (.valid {}) } true =
      ({ output := some (.valid {}), backupFile := some (.valid {}) },
       BackupArg.info "PROJECT_INDEX_backup")) ∧
    (safe_save_index { stats := { total_files := 1 } }
        { output := some (.valid {}), backupFile := some (.valid {}) }
        { replace := true } (BackupArg.info "PROJECT_INDEX_backup") =
      ({ output := some (.valid {}), backupFile := some (.valid {}),
         temp := some { stats := { total_files := 1 } } },
       .error .attributeError)) ∧
    (safe_save_index { stats := { total_files := 1 } }
        { output := some (.valid {}), backupFile := some (.valid {}) }
        { replace := true } (BackupArg.path "PROJECT_INDEX_backup") =
      ({ output := some (.valid {}), backupFile := some (.valid {}),
         temp := some { stats := { total_files := 1 } } },
       .ok false)) ∧
    (safe_save_index { stats := { total_files := 1 } }
        { output := some (.valid {}), backupFile := some (.valid {}) }
        { replace := true, rollbackCopy := true } (BackupArg.path "PROJECT_INDEX_backup") =
      ({ output := some (.valid {}), backupFile := some (.valid {}),
         temp := some { stats := { total_files := 1 } } },
       .ok false)) :=
  ⟨rfl, rfl, rfl, rfl⟩
